import Mathlib

/-!
Verification development for the `lingo` conversational-workflow library.

The development shallowly embeds the parts of the source that the checked
properties are about:

* `src/lingo/state.py` — the transactional `State` container (`_smart_copy`,
  `clone`, `atomic`, `fork`, `__init__`).  Python objects live in an explicit
  heap: immutable values (`int`, `str`, `bool`) are primitives, mutable
  containers (dicts, lists) are heap cells addressed by naturals, and
  `copy.deepcopy` is a fuelled recursive copy that allocates fresh cells.
* `src/lingo/flow_validator.py` — the structural YAML validator, embedded over
  a small closed document type `Doc`.
* `src/lingo/flow.py` — the node classes and their `execute` methods, as a
  deterministic interpreter parametrised by a decision provider (the
  `Context`/LLM capability, which is an external collaborator of the engine).
* `src/lingo/serializer.py` — `FlowSerializer.serialize_flow` /
  `deserialize_flow` over the same document type.

Python exceptions are modelled by the `PyErr` type; a function that can raise
returns an `Except`/`Option`, and in-place mutation is explicit state passing.
-/

namespace Lingo

/-- Python exception values, restricted to the payloads the embedded code
actually raises or compares.  `configurationError` appears in the design
documentation's error taxonomy; it is included so that statements can ask
whether a raised error is one. -/
inductive PyErr where
  | valueError (msg : String)
  | typeError (msg : String)
  | keyError (msg : String)
  | importError (msg : String)
  | runtimeError (msg : String)
  | validationError (msg : String) (errors : List String)
  | configurationError (msg : String)
deriving DecidableEq, Repr

/-- Tests whether an exception is the `ConfigurationError` of the documented
error taxonomy. -/
def PyErr.isConfigurationError : PyErr → Bool
  | .configurationError _ => true
  | _ => false

/-! ## Heap model for Python objects (used by `state.py`) -/

/-- Immutable Python scalar values (value semantics, unaffected by copying). -/
inductive Prim where
  | int (n : Int)
  | str (s : String)
  | bool (b : Bool)
  | none
deriving DecidableEq, Repr

/-- A Python value: an immutable scalar, or a reference to a mutable object
stored in the heap. -/
inductive PVal where
  | prim (p : Prim)
  | ref (a : Nat)
deriving DecidableEq, Repr

/-- A mutable Python object: a dict or a list whose fields are values. -/
inductive PObj where
  | dict (entries : List (String × PVal))
  | list (items : List PVal)
deriving DecidableEq, Repr

/-- The heap: an association of addresses to objects plus the next fresh
address.  `set` shadows (models in-place mutation), `alloc` uses `next`. -/
structure Heap where
  cells : List (Nat × PObj)
  next : Nat
deriving Repr

def Heap.lookup (h : Heap) (a : Nat) : Option PObj :=
  (h.cells.find? (fun c => c.1 = a)).map (fun c => c.2)

def Heap.alloc (h : Heap) (o : PObj) : Heap × Nat :=
  (⟨(h.next, o) :: h.cells, h.next + 1⟩, h.next)

def Heap.set (h : Heap) (a : Nat) (o : PObj) : Heap :=
  ⟨(a, o) :: h.cells, h.next⟩

/-- Every reference in the value lies in the address range `[lo, hi)`. -/
def valInB (lo hi : Nat) : PVal → Bool
  | .prim _ => true
  | .ref a => decide (lo ≤ a) && decide (a < hi)

def entriesInB (lo hi : Nat) (es : List (String × PVal)) : Bool :=
  es.all (fun e => valInB lo hi e.2)

def valsInB (lo hi : Nat) (vs : List PVal) : Bool :=
  vs.all (valInB lo hi)

def objInB (lo hi : Nat) : PObj → Bool
  | .dict es => entriesInB lo hi es
  | .list vs => valsInB lo hi vs

/-- Heap wellformedness: cells are allocated below `next` and reference only
addresses below `next`. -/
def Heap.wfB (h : Heap) : Bool :=
  h.cells.all (fun c => decide (c.1 < h.next) && objInB 0 h.next c.2)

/-! ### `copy.deepcopy`, fuelled

`copy.deepcopy` is a Python standard-library collaborator of `state.py`; it is
modelled as a structure-preserving recursive copy into fresh cells.  The fuel
bounds the dereferencing depth (Python's memo-based cycle handling is outside
the model: the claims are about finite, tree-shaped data). -/

mutual
def deepcopyVal (fuel : Nat) (h : Heap) (v : PVal) : Option (PVal × Heap) :=
  match fuel, v with
  | _, .prim p => some (.prim p, h)
  | 0, .ref _ => none
  | f + 1, .ref a =>
    match h.lookup a with
    | Option.none => none
    | some (.dict es) =>
      match deepcopyEntries f h es with
      | Option.none => none
      | some (es', h') =>
        let alloc := h'.alloc (.dict es')
        some (.ref alloc.2, alloc.1)
    | some (.list vs) =>
      match deepcopyVals f h vs with
      | Option.none => none
      | some (vs', h') =>
        let alloc := h'.alloc (.list vs')
        some (.ref alloc.2, alloc.1)
termination_by (fuel, 0)
decreasing_by
  all_goals simp_wf
  all_goals apply Prod.Lex.left
  all_goals omega

def deepcopyEntries (fuel : Nat) (h : Heap) (es : List (String × PVal)) :
    Option (List (String × PVal) × Heap) :=
  match es with
  | [] => some ([], h)
  | (k, v) :: rest =>
    match deepcopyVal fuel h v with
    | Option.none => none
    | some (v', h') =>
      match deepcopyEntries fuel h' rest with
      | Option.none => none
      | some (rest', h'') => some ((k, v') :: rest', h'')
termination_by (fuel, es.length + 1)
decreasing_by
  all_goals simp_wf
  all_goals apply Prod.Lex.right
  all_goals omega

def deepcopyVals (fuel : Nat) (h : Heap) (vs : List PVal) :
    Option (List PVal × Heap) :=
  match vs with
  | [] => some ([], h)
  | v :: rest =>
    match deepcopyVal fuel h v with
    | Option.none => none
    | some (v', h') =>
      match deepcopyVals fuel h' rest with
      | Option.none => none
      | some (rest', h'') => some ((v' :: rest'), h'')
termination_by (fuel, vs.length + 1)
decreasing_by
  all_goals simp_wf
  all_goals apply Prod.Lex.right
  all_goals omega
end

/-! ### Observation: flattening a value to a pure tree -/

/-- Pure trees: the observable content of a value, once references are
followed through the heap. -/
inductive PTree where
  | prim (p : Prim)
  | dict (entries : List (String × PTree))
  | list (items : List PTree)

mutual
def readVal (fuel : Nat) (h : Heap) (v : PVal) : Option PTree :=
  match fuel, v with
  | _, .prim p => some (.prim p)
  | 0, .ref _ => none
  | f + 1, .ref a =>
    match h.lookup a with
    | Option.none => none
    | some (.dict es) => (readEntries f h es).map .dict
    | some (.list vs) => (readVals f h vs).map .list
termination_by (fuel, 0)
decreasing_by
  all_goals simp_wf
  all_goals apply Prod.Lex.left
  all_goals omega

def readEntries (fuel : Nat) (h : Heap) (es : List (String × PVal)) :
    Option (List (String × PTree)) :=
  match es with
  | [] => some []
  | (k, v) :: rest =>
    match readVal fuel h v with
    | Option.none => none
    | some t =>
      match readEntries fuel h rest with
      | Option.none => none
      | some rest' => some ((k, t) :: rest')
termination_by (fuel, es.length + 1)
decreasing_by
  all_goals simp_wf
  all_goals apply Prod.Lex.right
  all_goals omega

def readVals (fuel : Nat) (h : Heap) (vs : List PVal) :
    Option (List PTree) :=
  match vs with
  | [] => some []
  | v :: rest =>
    match readVal fuel h v with
    | Option.none => none
    | some t =>
      match readVals fuel h rest with
      | Option.none => none
      | some rest' => some (t :: rest')
termination_by (fuel, vs.length + 1)
decreasing_by
  all_goals simp_wf
  all_goals apply Prod.Lex.right
  all_goals omega
end

/-! ## The `State` container (`src/lingo/state.py`) -/

/-- First-match association lookup, the model of `dict[k]` on the entry lists
that represent Python dict contents (keys are unique in a real dict, so the
first match is the match). -/
def lookupE (es : List (String × PVal)) (k : String) : Option PVal :=
  (es.find? (fun e => e.1 = k)).map (fun e => e.2)

/-- Python `d[k] = v`: replace the binding in place, or append a new one. -/
def setEntry : List (String × PVal) → String → PVal → List (String × PVal)
  | [], k, v => [(k, v)]
  | (k', v') :: es, k, v =>
    if k' = k then (k, v) :: es else (k', v') :: setEntry es k v

/-- Python `dict.update`: apply every binding of `upd` in order. -/
def updEntries (es upd : List (String × PVal)) : List (String × PVal) :=
  upd.foldl (fun acc kv => setEntry acc kv.1 kv.2) es

/-- The attached pydantic schema, as an oracle: validating the entry list
either yields the validated (defaulted/coerced) entries, `model_dump`-style, or
fails with pydantic's message.  Pydantic itself is an external collaborator of
`state.py`. -/
def SchemaT := List (String × PVal) → Except String (List (String × PVal))

/-- The data carried by a `State` object: its dict content, the optional
schema (`_schema`) and the shared-key set (`_shared_keys`). -/
structure StateD where
  entries : List (String × PVal)
  schema : Option SchemaT
  sharedKeys : List String

/-- Embeds `State.validate` (state.py lines 72-80): with no schema do nothing;
otherwise reconstruct through the schema and `update` the content with the
result, or raise `ValueError` wrapping pydantic's `ValidationError`. -/
def runValidate (s : StateD) : Except PyErr StateD :=
  match s.schema with
  | none => .ok s
  | some f =>
    match f s.entries with
    | .ok validated => .ok { s with entries := updEntries s.entries validated }
    | .error msg => .error (.valueError ("State validation failed: " ++ msg))

/-- Embeds `State._smart_copy` (state.py lines 118-126): deep-copy every value
except those under a shared key, which are carried over by reference. -/
def smartCopy (fuel : Nat) (sh : List String) (h : Heap) :
    List (String × PVal) → Option (List (String × PVal) × Heap)
  | [] => some ([], h)
  | (k, v) :: rest =>
    if k ∈ sh then
      match smartCopy fuel sh h rest with
      | Option.none => none
      | some (rest', h') => some ((k, v) :: rest', h')
    else
      match deepcopyVal fuel h v with
      | Option.none => none
      | some (v', h') =>
        match smartCopy fuel sh h' rest with
        | Option.none => none
        | some (rest', h'') => some ((k, v') :: rest', h'')

/-- The body of a `with`-scope: it receives the state object and the heap and
returns the mutated state, the mutated heap, and the exception it raised, if
any.  (The state object is shared with the scope, so mutations made through it
are just the returned state.) -/
def BodyR := StateD → Heap → StateD × Heap × Option PyErr

/-- Embeds `State.atomic` (state.py lines 147-160): snapshot via
`_smart_copy`, run the body; on normal completion re-validate when a schema is
present (committing the body's changes); on any exception — including one
raised by that re-validation — clear the dict, restore the snapshot and
re-raise.  `none` means the fuelled deepcopy gave out, i.e. the execution is
outside the modelled (finite-depth) ones. -/
def atomicRun (fuel : Nat) (s : StateD) (h : Heap) (body : BodyR) :
    Option (StateD × Heap × Option PyErr) :=
  match smartCopy fuel s.sharedKeys h s.entries with
  | Option.none => none
  | some (snap, h1) =>
    let out := body s h1
    match out.2.2 with
    | some e => some ({ out.1 with entries := snap }, out.2.1, some e)
    | Option.none =>
      match runValidate out.1 with
      | .ok s3 => some (s3, out.2.1, Option.none)
      | .error e => some ({ out.1 with entries := snap }, out.2.1, some e)

/-- Embeds `State.fork` (state.py lines 162-172): snapshot, run the body, and
in a `finally` clause clear the dict and restore the snapshot — on success and
on exception alike (the exception, if any, still propagates). -/
def forkRun (fuel : Nat) (s : StateD) (h : Heap) (body : BodyR) :
    Option (StateD × Heap × Option PyErr) :=
  match smartCopy fuel s.sharedKeys h s.entries with
  | Option.none => none
  | some (snap, h1) =>
    let out := body s h1
    some ({ out.1 with entries := snap }, out.2.1, out.2.2)

/-- Embeds `State.clone` (state.py lines 128-133): construct a new `State`
from `_smart_copy()` with the same schema and shared keys.  The constructor
re-validates when a schema is present (and its `data or {}` normalisation is
content-neutral here, since the copied dict is fresh). -/
def cloneRun (fuel : Nat) (s : StateD) (h : Heap) :
    Option (Except PyErr (StateD × Heap)) :=
  match smartCopy fuel s.sharedKeys h s.entries with
  | Option.none => none
  | some (snap, h1) =>
    match runValidate ⟨snap, s.schema, s.sharedKeys⟩ with
    | .ok s' => some (.ok (s', h1))
    | .error e => some (.error e)

/-- Embeds `State.__init__` (state.py lines 51-70).  `dataAddr` is the caller's
`data` argument: `none` for `data=None`, otherwise the address of the caller's
dict object.  Mirrors `initial_data = data or {}` (an **empty** caller dict is
falsy, so a fresh dict is used instead), then `initial_data.update(kwargs)`
(mutating the caller's dict in place in the non-empty case), then
`dict.__init__` copying the entries, then validation when a schema is given.
The heap is returned even when validation raises, since the mutation of the
caller's dict has already happened. -/
def stateInit (h : Heap) (dataAddr : Option Nat) (kwargs : List (String × PVal))
    (schema : Option SchemaT) (shared : List String) :
    Heap × Except PyErr StateD :=
  match dataAddr with
  | none =>
    (h, runValidate ⟨updEntries [] kwargs, schema, shared⟩)
  | some a =>
    match h.lookup a with
    | some (.dict es) =>
      if es.isEmpty then
        (h, runValidate ⟨updEntries [] kwargs, schema, shared⟩)
      else
        let es' := updEntries es kwargs
        (h.set a (.dict es'), runValidate ⟨es', schema, shared⟩)
    | _ =>
      -- Passing a non-dict as `data` is outside the constructor's annotated
      -- type (`data: dict | None`); Python would fail inside `update`.
      (h, .error (.typeError "State data must be a dict"))

/-! ### Basic heap lemmas -/

theorem lookup_alloc (h : Heap) (o : PObj) (a : Nat) :
    ((h.alloc o).1).lookup a = if h.next = a then some o else h.lookup a := by
  simp only [Heap.alloc, Heap.lookup, List.find?]
  by_cases hc : h.next = a
  · simp [hc]
  · simp [hc]

theorem lookup_set (h : Heap) (a : Nat) (o : PObj) (b : Nat) :
    (h.set a o).lookup b = if a = b then some o else h.lookup b := by
  simp only [Heap.set, Heap.lookup, List.find?]
  by_cases hc : a = b
  · simp [hc]
  · simp [hc]

theorem valInB_mono {lo hi lo' hi' : Nat} {v : PVal} (hv : valInB lo hi v = true)
    (h1 : lo' ≤ lo) (h2 : hi ≤ hi') : valInB lo' hi' v = true := by
  cases v with
  | prim p => rfl
  | ref a =>
    simp only [valInB, Bool.and_eq_true, decide_eq_true_eq] at hv ⊢
    omega

theorem entriesInB_mono {lo hi lo' hi' : Nat} {es : List (String × PVal)}
    (hv : entriesInB lo hi es = true) (h1 : lo' ≤ lo) (h2 : hi ≤ hi') :
    entriesInB lo' hi' es = true := by
  simp only [entriesInB, List.all_eq_true] at hv ⊢
  exact fun e he => valInB_mono (hv e he) h1 h2

theorem valsInB_mono {lo hi lo' hi' : Nat} {vs : List PVal}
    (hv : valsInB lo hi vs = true) (h1 : lo' ≤ lo) (h2 : hi ≤ hi') :
    valsInB lo' hi' vs = true := by
  simp only [valsInB, List.all_eq_true] at hv ⊢
  exact fun e he => valInB_mono (hv e he) h1 h2

theorem objInB_mono {lo hi lo' hi' : Nat} {o : PObj} (hv : objInB lo hi o = true)
    (h1 : lo' ≤ lo) (h2 : hi ≤ hi') : objInB lo' hi' o = true := by
  cases o with
  | dict es => exact entriesInB_mono hv h1 h2
  | list vs => exact valsInB_mono hv h1 h2

theorem wfB_lookup {h : Heap} {a : Nat} {o : PObj} (hwf : h.wfB = true)
    (hl : h.lookup a = some o) : a < h.next ∧ objInB 0 h.next o = true := by
  simp only [Heap.wfB, List.all_eq_true] at hwf
  simp only [Heap.lookup, Option.map_eq_some'] at hl
  obtain ⟨c, hc, hco⟩ := hl
  have hmem := List.mem_of_find?_eq_some hc
  have hp := List.find?_some hc
  have := hwf c hmem
  simp only [Bool.and_eq_true, decide_eq_true_eq] at this hp
  exact ⟨hp ▸ this.1, hco ▸ this.2⟩

theorem lookup_none_ge {h : Heap} {a : Nat} (hwf : h.wfB = true)
    (ha : h.next ≤ a) : h.lookup a = none := by
  cases hl : h.lookup a with
  | none => rfl
  | some o =>
    have := (wfB_lookup hwf hl).1
    omega

theorem wfB_alloc {h : Heap} {o : PObj} (hwf : h.wfB = true)
    (ho : objInB 0 (h.next + 1) o = true) : ((h.alloc o).1).wfB = true := by
  simp only [Heap.wfB, Heap.alloc, List.all_cons, List.all_eq_true,
    Bool.and_eq_true, decide_eq_true_eq] at hwf ⊢
  constructor
  · exact ⟨by omega, ho⟩
  · intro c hc
    have := hwf c hc
    exact ⟨by omega, objInB_mono this.2 (le_refl 0) (by omega)⟩

/-! ### Reads are determined by the heap fragment a value can reach -/

theorem readEntries_congr_of {f : Nat} {h₁ h₂ : Heap} {es : List (String × PVal)}
    (hv : ∀ e ∈ es, readVal f h₁ e.2 = readVal f h₂ e.2) :
    readEntries f h₁ es = readEntries f h₂ es := by
  induction es with
  | nil => simp [readEntries]
  | cons e rest ih =>
    obtain ⟨k, v⟩ := e
    simp only [readEntries]
    rw [hv (k, v) (List.mem_cons_self _ _),
      ih (fun e he => hv e (List.mem_cons_of_mem _ he))]

theorem readVals_congr_of {f : Nat} {h₁ h₂ : Heap} {vs : List PVal}
    (hv : ∀ v ∈ vs, readVal f h₁ v = readVal f h₂ v) :
    readVals f h₁ vs = readVals f h₂ vs := by
  induction vs with
  | nil => simp [readVals]
  | cons v rest ih =>
    simp only [readVals]
    rw [hv v (List.mem_cons_self _ _),
      ih (fun v hvm => hv v (List.mem_cons_of_mem _ hvm))]

/-- Reading a value whose references lie in `[lo, hi)` sees only that address
range, provided the objects there are closed in the range. -/
theorem readVal_congr (lo hi : Nat) (h₁ h₂ : Heap)
    (hagree : ∀ a, lo ≤ a → a < hi → h₁.lookup a = h₂.lookup a)
    (hclosed : ∀ a o, lo ≤ a → a < hi → h₁.lookup a = some o →
      objInB lo hi o = true) :
    ∀ f v, valInB lo hi v = true → readVal f h₁ v = readVal f h₂ v := by
  intro f
  induction f with
  | zero =>
    intro v _
    cases v with
    | prim p => simp [readVal]
    | ref a => simp [readVal]
  | succ f ih =>
    intro v hv
    cases v with
    | prim p => simp [readVal]
    | ref a =>
      simp only [valInB, Bool.and_eq_true, decide_eq_true_eq] at hv
      simp only [readVal]
      rw [← hagree a hv.1 hv.2]
      cases hl : h₁.lookup a with
      | none => rfl
      | some o =>
        have hobj := hclosed a o hv.1 hv.2 hl
        cases o with
        | dict es =>
          simp only [entriesInB, objInB, List.all_eq_true] at hobj
          dsimp only
          rw [readEntries_congr_of (fun e he => ih e.2 (hobj e he))]
        | list vs =>
          simp only [valsInB, objInB, List.all_eq_true] at hobj
          dsimp only
          rw [readVals_congr_of (fun v hvm => ih v (hobj v hvm))]

theorem readEntries_congr (lo hi : Nat) (h₁ h₂ : Heap)
    (hagree : ∀ a, lo ≤ a → a < hi → h₁.lookup a = h₂.lookup a)
    (hclosed : ∀ a o, lo ≤ a → a < hi → h₁.lookup a = some o →
      objInB lo hi o = true)
    (f : Nat) (es : List (String × PVal)) (hes : entriesInB lo hi es = true) :
    readEntries f h₁ es = readEntries f h₂ es := by
  simp only [entriesInB, List.all_eq_true] at hes
  exact readEntries_congr_of
    (fun e he => readVal_congr lo hi h₁ h₂ hagree hclosed f e.2 (hes e he))

/-- Reading is stable under extending the heap with fresh cells. -/
theorem readVal_extend {h h' : Heap} {f : Nat} {v : PVal}
    (hwf : h.wfB = true)
    (hext : ∀ a, a < h.next → h'.lookup a = h.lookup a)
    (hv : valInB 0 h.next v = true) :
    readVal f h' v = readVal f h v :=
  readVal_congr 0 h.next h' h (fun a _ hlt => hext a hlt)
    (fun a o _ hlt hl => by
      rw [hext a hlt] at hl
      exact (wfB_lookup hwf hl).2) f v hv

theorem readEntries_extend {h h' : Heap} {f : Nat} {es : List (String × PVal)}
    (hwf : h.wfB = true)
    (hext : ∀ a, a < h.next → h'.lookup a = h.lookup a)
    (hes : entriesInB 0 h.next es = true) :
    readEntries f h' es = readEntries f h es :=
  readEntries_congr 0 h.next h' h (fun a _ hlt => hext a hlt)
    (fun a o _ hlt hl => by
      rw [hext a hlt] at hl
      exact (wfB_lookup hwf hl).2) f es hes

theorem readVals_extend {h h' : Heap} {f : Nat} {vs : List PVal}
    (hwf : h.wfB = true)
    (hext : ∀ a, a < h.next → h'.lookup a = h.lookup a)
    (hvs : valsInB 0 h.next vs = true) :
    readVals f h' vs = readVals f h vs := by
  simp only [valsInB, List.all_eq_true] at hvs
  exact readVals_congr_of (fun v hv => readVal_extend hwf hext (hvs v hv))

/-! ### Specification of the fuelled deepcopy

A successful `deepcopy` extends the heap with fresh cells only, keeps it
wellformed, returns a value whose references are fresh and closed among the
fresh cells, and whose observable content equals the original's. -/

def DCValSpec (f : Nat) : Prop :=
  ∀ h v v' h', h.wfB = true → valInB 0 h.next v = true →
    deepcopyVal f h v = some (v', h') →
    (∀ a, a < h.next → h'.lookup a = h.lookup a)
    ∧ h.next ≤ h'.next
    ∧ h'.wfB = true
    ∧ valInB h.next h'.next v' = true
    ∧ (∀ a o, h.next ≤ a → h'.lookup a = some o → objInB h.next h'.next o = true)
    ∧ readVal f h' v' = readVal f h v
    ∧ (readVal f h v).isSome = true

def DCEntriesSpec (f : Nat) : Prop :=
  ∀ h es es' h', h.wfB = true → entriesInB 0 h.next es = true →
    deepcopyEntries f h es = some (es', h') →
    (∀ a, a < h.next → h'.lookup a = h.lookup a)
    ∧ h.next ≤ h'.next
    ∧ h'.wfB = true
    ∧ entriesInB h.next h'.next es' = true
    ∧ (∀ a o, h.next ≤ a → h'.lookup a = some o → objInB h.next h'.next o = true)
    ∧ readEntries f h' es' = readEntries f h es
    ∧ (readEntries f h es).isSome = true

def DCValsSpec (f : Nat) : Prop :=
  ∀ h vs vs' h', h.wfB = true → valsInB 0 h.next vs = true →
    deepcopyVals f h vs = some (vs', h') →
    (∀ a, a < h.next → h'.lookup a = h.lookup a)
    ∧ h.next ≤ h'.next
    ∧ h'.wfB = true
    ∧ valsInB h.next h'.next vs' = true
    ∧ (∀ a o, h.next ≤ a → h'.lookup a = some o → objInB h.next h'.next o = true)
    ∧ readVals f h' vs' = readVals f h vs
    ∧ (readVals f h vs).isSome = true

theorem closure_trivial {h : Heap} (hwf : h.wfB = true) :
    ∀ a o, h.next ≤ a → h.lookup a = some o → objInB h.next h.next o = true := by
  intro a o ha hl
  rw [lookup_none_ge hwf ha] at hl
  exact absurd hl (by simp)

theorem dcVal_prim (f : Nat) {h : Heap} {p : Prim} {v' : PVal} {h' : Heap}
    (hwf : h.wfB = true) (hd : deepcopyVal f h (.prim p) = some (v', h')) :
    v' = .prim p ∧ h' = h := by
  cases f with
  | zero =>
    simp only [deepcopyVal, Option.some.injEq, Prod.mk.injEq] at hd
    exact ⟨hd.1.symm, hd.2.symm⟩
  | succ f =>
    simp only [deepcopyVal, Option.some.injEq, Prod.mk.injEq] at hd
    exact ⟨hd.1.symm, hd.2.symm⟩

theorem dcVal_zero : DCValSpec 0 := by
  intro h v v' h' hwf hv hd
  cases v with
  | prim p =>
    obtain ⟨rfl, rfl⟩ := dcVal_prim 0 hwf hd
    refine ⟨fun a _ => rfl, le_refl _, hwf, rfl, closure_trivial hwf, rfl, ?_⟩
    simp [readVal]
  | ref a => simp [deepcopyVal] at hd

theorem dcEntries_of_val {f : Nat} (hval : DCValSpec f) : DCEntriesSpec f := by
  intro h es
  induction es generalizing h with
  | nil =>
    intro es' h' hwf _ hd
    simp only [deepcopyEntries, Option.some.injEq, Prod.mk.injEq] at hd
    obtain ⟨he, hh⟩ := hd
    subst he; subst hh
    refine ⟨fun a _ => rfl, le_refl _, hwf, by simp [entriesInB],
      closure_trivial hwf, rfl, by simp [readEntries]⟩
  | cons e rest ih =>
    obtain ⟨k, v⟩ := e
    intro es' h' hwf hes hd
    simp only [entriesInB, List.all_cons, Bool.and_eq_true] at hes
    simp only [deepcopyEntries] at hd
    cases hdv : deepcopyVal f h v with
    | none => rw [hdv] at hd; exact absurd hd (by simp)
    | some out =>
      obtain ⟨v', hA⟩ := out
      rw [hdv] at hd
      dsimp only at hd
      cases hde : deepcopyEntries f hA rest with
      | none => rw [hde] at hd; exact absurd hd (by simp)
      | some out2 =>
        obtain ⟨rest', hB⟩ := out2
        rw [hde] at hd
        dsimp only at hd
        simp only [Option.some.injEq, Prod.mk.injEq] at hd
        obtain ⟨he, hh⟩ := hd
        subst he; subst hh
        obtain ⟨ext1, mono1, wf1, vin1, clos1, rd1, rds1⟩ :=
          hval h v v' hA hwf hes.1 hdv
        have hrest : entriesInB 0 hA.next rest = true :=
          entriesInB_mono hes.2 (le_refl 0) mono1
        obtain ⟨ext2, mono2, wf2, ein2, clos2, rd2, rds2⟩ :=
          ih hA rest' hB wf1 hrest hde
        have extB : ∀ a, a < h.next → hB.lookup a = h.lookup a := by
          intro a ha
          rw [ext2 a (lt_of_lt_of_le ha mono1), ext1 a ha]
        -- reading the head copy in the final heap
        have hrdv : readVal f hB v' = readVal f h v := by
          have : readVal f hB v' = readVal f hA v' := by
            refine readVal_congr h.next hA.next hB hA
              (fun a _ hlt => ext2 a hlt)
              (fun a o hge hlt hl => ?_) f v' vin1
            rw [ext2 a hlt] at hl
            exact clos1 a o hge hl
          rw [this, rd1]
        -- reading the original tail in the middle heap
        have hrdrest : readEntries f hA rest = readEntries f h rest :=
          readEntries_extend hwf ext1 hes.2
        refine ⟨extB, le_trans mono1 mono2, wf2, ?_, ?_, ?_, ?_⟩
        · simp only [entriesInB, List.all_cons, Bool.and_eq_true]
          exact ⟨valInB_mono vin1 (le_refl _) mono2,
            entriesInB_mono ein2 mono1 (le_refl _)⟩
        · intro a o hge hl
          by_cases hcase : a < hA.next
          · rw [ext2 a hcase] at hl
            exact objInB_mono (clos1 a o hge hl) (le_refl _) mono2
          · exact objInB_mono (clos2 a o (by omega) hl) mono1 (le_refl _)
        · simp only [readEntries]
          rw [hrdv, rd2, hrdrest]
        · simp only [readEntries]
          cases hv0 : readVal f h v with
          | none => rw [hv0] at rds1; exact absurd rds1 (by simp)
          | some t =>
            dsimp only
            rw [hrdrest] at rds2
            cases hr0 : readEntries f h rest with
            | none => rw [hr0] at rds2; exact absurd rds2 (by simp)
            | some ts => simp

theorem dcVals_of_val {f : Nat} (hval : DCValSpec f) : DCValsSpec f := by
  intro h vs
  induction vs generalizing h with
  | nil =>
    intro vs' h' hwf _ hd
    simp only [deepcopyVals, Option.some.injEq, Prod.mk.injEq] at hd
    obtain ⟨he, hh⟩ := hd
    subst he; subst hh
    refine ⟨fun a _ => rfl, le_refl _, hwf, by simp [valsInB],
      closure_trivial hwf, rfl, by simp [readVals]⟩
  | cons v rest ih =>
    intro vs' h' hwf hvs hd
    simp only [valsInB, List.all_cons, Bool.and_eq_true] at hvs
    simp only [deepcopyVals] at hd
    cases hdv : deepcopyVal f h v with
    | none => rw [hdv] at hd; exact absurd hd (by simp)
    | some out =>
      obtain ⟨v', hA⟩ := out
      rw [hdv] at hd
      dsimp only at hd
      cases hde : deepcopyVals f hA rest with
      | none => rw [hde] at hd; exact absurd hd (by simp)
      | some out2 =>
        obtain ⟨rest', hB⟩ := out2
        rw [hde] at hd
        dsimp only at hd
        simp only [Option.some.injEq, Prod.mk.injEq] at hd
        obtain ⟨he, hh⟩ := hd
        subst he; subst hh
        obtain ⟨ext1, mono1, wf1, vin1, clos1, rd1, rds1⟩ :=
          hval h v v' hA hwf hvs.1 hdv
        have hrest : valsInB 0 hA.next rest = true :=
          valsInB_mono hvs.2 (le_refl 0) mono1
        obtain ⟨ext2, mono2, wf2, ein2, clos2, rd2, rds2⟩ :=
          ih hA rest' hB wf1 hrest hde
        have extB : ∀ a, a < h.next → hB.lookup a = h.lookup a := by
          intro a ha
          rw [ext2 a (lt_of_lt_of_le ha mono1), ext1 a ha]
        have hrdv : readVal f hB v' = readVal f h v := by
          have : readVal f hB v' = readVal f hA v' := by
            refine readVal_congr h.next hA.next hB hA
              (fun a _ hlt => ext2 a hlt)
              (fun a o hge hlt hl => ?_) f v' vin1
            rw [ext2 a hlt] at hl
            exact clos1 a o hge hl
          rw [this, rd1]
        have hrdrest : readVals f hA rest = readVals f h rest :=
          readVals_extend hwf ext1 hvs.2
        refine ⟨extB, le_trans mono1 mono2, wf2, ?_, ?_, ?_, ?_⟩
        · simp only [valsInB, List.all_cons, Bool.and_eq_true]
          exact ⟨valInB_mono vin1 (le_refl _) mono2,
            valsInB_mono ein2 mono1 (le_refl _)⟩
        · intro a o hge hl
          by_cases hcase : a < hA.next
          · rw [ext2 a hcase] at hl
            exact objInB_mono (clos1 a o hge hl) (le_refl _) mono2
          · exact objInB_mono (clos2 a o (by omega) hl) mono1 (le_refl _)
        · simp only [readVals]
          rw [hrdv, rd2, hrdrest]
        · simp only [readVals]
          cases hv0 : readVal f h v with
          | none => rw [hv0] at rds1; exact absurd rds1 (by simp)
          | some t =>
            dsimp only
            rw [hrdrest] at rds2
            cases hr0 : readVals f h rest with
            | none => rw [hr0] at rds2; exact absurd rds2 (by simp)
            | some ts => simp

theorem alloc_next (h : Heap) (o : PObj) : ((h.alloc o).1).next = h.next + 1 :=
  rfl

theorem alloc_snd (h : Heap) (o : PObj) : (h.alloc o).2 = h.next :=
  rfl

theorem dcVal_succ {f : Nat} (hent : DCEntriesSpec f) (hvals : DCValsSpec f) :
    DCValSpec (f + 1) := by
  intro h v v' h' hwf hv hd
  cases v with
  | prim p =>
    obtain ⟨rfl, rfl⟩ := dcVal_prim (f + 1) hwf hd
    refine ⟨fun a _ => rfl, le_refl _, hwf, rfl, closure_trivial hwf, rfl, ?_⟩
    simp [readVal]
  | ref a =>
    simp only [valInB, Bool.and_eq_true, decide_eq_true_eq] at hv
    simp only [deepcopyVal] at hd
    cases hla : h.lookup a with
    | none => rw [hla] at hd; exact absurd hd (by simp)
    | some obj =>
      rw [hla] at hd
      obtain ⟨haN, hobj⟩ := wfB_lookup hwf hla
      cases obj with
      | dict es =>
        dsimp only at hd
        cases hde : deepcopyEntries f h es with
        | none => rw [hde] at hd; exact absurd hd (by simp)
        | some out =>
          obtain ⟨es', hA⟩ := out
          rw [hde] at hd
          dsimp only at hd
          simp only [Option.some.injEq, Prod.mk.injEq] at hd
          obtain ⟨he, hh⟩ := hd
          subst he; subst hh
          obtain ⟨ext1, mono1, wf1, ein1, clos1, rd1, rds1⟩ :=
            hent h es es' hA hwf hobj hde
          have hneq : ∀ b, b < hA.next → ((hA.alloc (.dict es')).1).lookup b =
              hA.lookup b := by
            intro b hb
            rw [lookup_alloc]
            exact if_neg (by omega)
          refine ⟨?_, ?_, ?_, ?_, ?_, ?_, ?_⟩
          · intro b hb
            rw [hneq b (by omega), ext1 b hb]
          · rw [alloc_next]; omega
          · exact wfB_alloc wf1 (entriesInB_mono ein1 (Nat.zero_le _) (by omega))
          · simp only [valInB, alloc_next, Heap.alloc, Bool.and_eq_true,
              decide_eq_true_eq]
            omega
          · intro b o hb hl
            rw [lookup_alloc] at hl
            by_cases hbb : hA.next = b
            · rw [if_pos hbb] at hl
              cases hl
              exact entriesInB_mono ein1 (le_refl _) (by rw [alloc_next]; omega)
            · rw [if_neg hbb] at hl
              exact objInB_mono (clos1 b o hb hl) (le_refl _)
                (by rw [alloc_next]; omega)
          · simp only [readVal]
            rw [hla, alloc_snd]
            have hsome : ((hA.alloc (.dict es')).1).lookup hA.next =
                some (.dict es') := by
              rw [lookup_alloc]
              exact if_pos rfl
            rw [hsome]
            dsimp only
            have : readEntries f ((hA.alloc (.dict es')).1) es' =
                readEntries f hA es' := by
              refine readEntries_congr h.next hA.next _ hA
                (fun b _ hb => hneq b hb)
                (fun b o hbge hblt hl => ?_) f es' ein1
              rw [hneq b hblt] at hl
              exact clos1 b o hbge hl
            rw [this, rd1]
          · simp only [readVal]
            rw [hla]
            dsimp only
            cases hr0 : readEntries f h es with
            | none => rw [hr0] at rds1; exact absurd rds1 (by simp)
            | some ts => simp
      | list vs =>
        dsimp only at hd
        cases hde : deepcopyVals f h vs with
        | none => rw [hde] at hd; exact absurd hd (by simp)
        | some out =>
          obtain ⟨vs', hA⟩ := out
          rw [hde] at hd
          dsimp only at hd
          simp only [Option.some.injEq, Prod.mk.injEq] at hd
          obtain ⟨he, hh⟩ := hd
          subst he; subst hh
          obtain ⟨ext1, mono1, wf1, ein1, clos1, rd1, rds1⟩ :=
            hvals h vs vs' hA hwf hobj hde
          have hneq : ∀ b, b < hA.next → ((hA.alloc (.list vs')).1).lookup b =
              hA.lookup b := by
            intro b hb
            rw [lookup_alloc]
            exact if_neg (by omega)
          refine ⟨?_, ?_, ?_, ?_, ?_, ?_, ?_⟩
          · intro b hb
            rw [hneq b (by omega), ext1 b hb]
          · rw [alloc_next]; omega
          · exact wfB_alloc wf1 (valsInB_mono ein1 (Nat.zero_le _) (by omega))
          · simp only [valInB, alloc_next, Heap.alloc, Bool.and_eq_true,
              decide_eq_true_eq]
            omega
          · intro b o hb hl
            rw [lookup_alloc] at hl
            by_cases hbb : hA.next = b
            · rw [if_pos hbb] at hl
              cases hl
              exact valsInB_mono ein1 (le_refl _) (by rw [alloc_next]; omega)
            · rw [if_neg hbb] at hl
              exact objInB_mono (clos1 b o hb hl) (le_refl _)
                (by rw [alloc_next]; omega)
          · simp only [readVal]
            rw [hla, alloc_snd]
            have hsome : ((hA.alloc (.list vs')).1).lookup hA.next =
                some (.list vs') := by
              rw [lookup_alloc]
              exact if_pos rfl
            rw [hsome]
            dsimp only
            have : readVals f ((hA.alloc (.list vs')).1) vs' =
                readVals f hA vs' := by
              refine readVals_congr_of (fun w hw => ?_)
              refine readVal_congr h.next hA.next _ hA
                (fun b _ hb => hneq b hb)
                (fun b o hbge hblt hl => ?_) f w ?_
              · rw [hneq b hblt] at hl
                exact clos1 b o hbge hl
              · simp only [valsInB, List.all_eq_true] at ein1
                exact ein1 w hw
            rw [this, rd1]
          · simp only [readVal]
            rw [hla]
            dsimp only
            cases hr0 : readVals f h vs with
            | none => rw [hr0] at rds1; exact absurd rds1 (by simp)
            | some ts => simp

/-- Full specification of `copy.deepcopy` on values (by fuel induction). -/
theorem dcSpec : ∀ f, DCValSpec f
  | 0 => dcVal_zero
  | f + 1 => dcVal_succ (dcEntries_of_val (dcSpec f)) (dcVals_of_val (dcSpec f))

/-! ### Specification of `_smart_copy` -/

theorem lookupE_cons (k0 : String) (v0 : PVal) (es : List (String × PVal))
    (k : String) :
    lookupE ((k0, v0) :: es) k = if k0 = k then some v0 else lookupE es k := by
  by_cases hc : k0 = k
  · simp [lookupE, List.find?, hc]
  · simp [lookupE, List.find?, hc]

theorem lookupE_inB {lo hi : Nat} {es : List (String × PVal)} {k : String}
    {v : PVal} (hes : entriesInB lo hi es = true) (hl : lookupE es k = some v) :
    valInB lo hi v = true := by
  simp only [lookupE, Option.map_eq_some'] at hl
  obtain ⟨c, hc, hco⟩ := hl
  have hmem := List.mem_of_find?_eq_some hc
  simp only [entriesInB, List.all_eq_true] at hes
  exact hco ▸ hes c hmem

/-- Specification of `State._smart_copy`: the heap is extended with fresh,
range-closed cells; shared keys keep their value (the very same reference);
non-shared keys get a fresh value with the same observable content. -/
theorem smartCopy_spec {f : Nat} {sh : List String} :
    ∀ {h : Heap} {es snap : List (String × PVal)} {h1 : Heap},
      h.wfB = true → entriesInB 0 h.next es = true →
      smartCopy f sh h es = some (snap, h1) →
      (∀ a, a < h.next → h1.lookup a = h.lookup a)
      ∧ h.next ≤ h1.next
      ∧ h1.wfB = true
      ∧ (∀ a o, h.next ≤ a → h1.lookup a = some o →
          objInB h.next h1.next o = true)
      ∧ (∀ k, k ∈ sh → lookupE snap k = lookupE es k)
      ∧ (∀ k, (lookupE snap k).isSome = (lookupE es k).isSome)
      ∧ (∀ k v, ¬ k ∈ sh → lookupE es k = some v →
          ∃ v', lookupE snap k = some v'
            ∧ valInB h.next h1.next v' = true
            ∧ readVal f h1 v' = readVal f h v
            ∧ (readVal f h v).isSome = true) := by
  intro h es
  induction es generalizing h with
  | nil =>
    intro snap h1 hwf _ hd
    simp only [smartCopy, Option.some.injEq, Prod.mk.injEq] at hd
    obtain ⟨he, hh⟩ := hd
    subst he; subst hh
    refine ⟨fun a _ => rfl, le_refl _, hwf, closure_trivial hwf,
      fun k _ => rfl, fun k => rfl, fun k v _ hl => ?_⟩
    simp [lookupE] at hl
  | cons e rest ih =>
    obtain ⟨k0, v0⟩ := e
    intro snap h1 hwf hes hd
    simp only [entriesInB, List.all_cons, Bool.and_eq_true] at hes
    simp only [smartCopy] at hd
    by_cases hk : k0 ∈ sh
    · rw [if_pos hk] at hd
      cases hsc : smartCopy f sh h rest with
      | none => rw [hsc] at hd; exact absurd hd (by simp)
      | some out =>
        obtain ⟨rest', h1'⟩ := out
        rw [hsc] at hd
        dsimp only at hd
        simp only [Option.some.injEq, Prod.mk.injEq] at hd
        obtain ⟨he, hh⟩ := hd
        subst he; subst hh
        obtain ⟨ext1, mono1, wf1, clos1, g5, g6, g7⟩ := ih hwf hes.2 hsc
        refine ⟨ext1, mono1, wf1, clos1, ?_, ?_, ?_⟩
        · intro k hksh
          rw [lookupE_cons, lookupE_cons]
          by_cases hc : k0 = k
          · simp [hc]
          · simp only [if_neg hc]
            exact g5 k hksh
        · intro k
          rw [lookupE_cons, lookupE_cons]
          by_cases hc : k0 = k
          · simp [hc]
          · simp only [if_neg hc]
            exact g6 k
        · intro k v hknsh hl
          rw [lookupE_cons] at hl
          by_cases hc : k0 = k
          · exact absurd (hc ▸ hk) hknsh
          · rw [if_neg hc] at hl
            obtain ⟨v', hv'⟩ := g7 k v hknsh hl
            exact ⟨v', by rw [lookupE_cons, if_neg hc]; exact hv'.1,
              hv'.2.1, hv'.2.2.1, hv'.2.2.2⟩
    · rw [if_neg hk] at hd
      cases hdv : deepcopyVal f h v0 with
      | none => rw [hdv] at hd; exact absurd hd (by simp)
      | some out =>
        obtain ⟨v0', hA⟩ := out
        rw [hdv] at hd
        dsimp only at hd
        cases hsc : smartCopy f sh hA rest with
        | none => rw [hsc] at hd; exact absurd hd (by simp)
        | some out2 =>
          obtain ⟨rest', h1'⟩ := out2
          rw [hsc] at hd
          dsimp only at hd
          simp only [Option.some.injEq, Prod.mk.injEq] at hd
          obtain ⟨he, hh⟩ := hd
          subst he; subst hh
          obtain ⟨dext, dmono, dwf, dvin, dclos, drd, drds⟩ :=
            dcSpec f h v0 v0' hA hwf hes.1 hdv
          have hrest : entriesInB 0 hA.next rest = true :=
            entriesInB_mono hes.2 (le_refl 0) dmono
          obtain ⟨ext1, mono1, wf1, clos1, g5, g6, g7⟩ := ih dwf hrest hsc
          have extB : ∀ a, a < h.next → h1'.lookup a = h.lookup a := by
            intro a ha
            rw [ext1 a (lt_of_lt_of_le ha dmono), dext a ha]
          have hrdv0 : readVal f h1' v0' = readVal f h v0 := by
            have : readVal f h1' v0' = readVal f hA v0' := by
              refine readVal_congr h.next hA.next h1' hA
                (fun a _ hlt => ext1 a hlt)
                (fun a o hge hlt hl => ?_) f v0' dvin
              rw [ext1 a hlt] at hl
              exact dclos a o hge hl
            rw [this, drd]
          refine ⟨extB, le_trans dmono mono1, wf1, ?_, ?_, ?_, ?_⟩
          · intro a o hge hl
            by_cases hcase : a < hA.next
            · rw [ext1 a hcase] at hl
              exact objInB_mono (dclos a o hge hl) (le_refl _) mono1
            · exact objInB_mono (clos1 a o (by omega) hl) dmono (le_refl _)
          · intro k hksh
            rw [lookupE_cons, lookupE_cons]
            by_cases hc : k0 = k
            · exact absurd (hc ▸ hksh) hk
            · simp only [if_neg hc]
              exact g5 k hksh
          · intro k
            rw [lookupE_cons, lookupE_cons]
            by_cases hc : k0 = k
            · simp [hc]
            · simp only [if_neg hc]
              exact g6 k
          · intro k v hknsh hl
            rw [lookupE_cons] at hl
            by_cases hc : k0 = k
            · rw [if_pos hc] at hl
              cases hl
              refine ⟨v0', by rw [lookupE_cons, if_pos hc],
                valInB_mono dvin (le_refl _) mono1, hrdv0, drds⟩
            · rw [if_neg hc] at hl
              obtain ⟨v', hvl, hvin, hvrd, hvs⟩ := g7 k v hknsh hl
              have hv0 : valInB 0 h.next v = true := lookupE_inB hes.2 hl
              have hstab : readVal f hA v = readVal f h v :=
                readVal_extend hwf dext hv0
              exact ⟨v', by rw [lookupE_cons, if_neg hc]; exact hvl,
                valInB_mono hvin dmono (le_refl _), by rw [hvrd, hstab],
                by rw [← hstab]; exact hvs⟩

/-! ### Lemmas about `dict.update` -/

theorem lookupE_setEntry_self (es : List (String × PVal)) (k : String)
    (v : PVal) : lookupE (setEntry es k v) k = some v := by
  induction es with
  | nil => simp [setEntry, lookupE, List.find?]
  | cons e rest ih =>
    obtain ⟨k', v'⟩ := e
    simp only [setEntry]
    by_cases hc : k' = k
    · rw [if_pos hc, lookupE_cons, if_pos rfl]
    · rw [if_neg hc, lookupE_cons, if_neg hc]
      exact ih

theorem lookupE_setEntry_other (es : List (String × PVal)) (k k' : String)
    (v : PVal) (hne : k' ≠ k) : lookupE (setEntry es k' v) k = lookupE es k := by
  induction es with
  | nil => simp [setEntry, lookupE, List.find?, hne]
  | cons e rest ih =>
    obtain ⟨k0, v0⟩ := e
    simp only [setEntry]
    by_cases hc : k0 = k'
    · subst hc
      rw [if_pos rfl, lookupE_cons, if_neg hne, lookupE_cons, if_neg hne]
    · rw [if_neg hc, lookupE_cons, lookupE_cons]
      by_cases hck : k0 = k
      · rw [if_pos hck, if_pos hck]
      · rw [if_neg hck, if_neg hck]
        exact ih

theorem lookupE_updEntries_not_mem (es : List (String × PVal))
    (upd : List (String × PVal)) (k : String)
    (hk : ∀ e ∈ upd, e.1 ≠ k) :
    lookupE (updEntries es upd) k = lookupE es k := by
  induction upd generalizing es with
  | nil => rfl
  | cons e rest ih =>
    obtain ⟨k0, v0⟩ := e
    simp only [updEntries, List.foldl_cons] at ih ⊢
    rw [ih (setEntry es k0 v0) (fun e he => hk e (List.mem_cons_of_mem _ he)),
      lookupE_setEntry_other es k k0 v0 (hk (k0, v0) (List.mem_cons_self _ _))]

theorem lookupE_updEntries_mem (es : List (String × PVal))
    (upd : List (String × PVal)) (hnd : (upd.map Prod.fst).Nodup) :
    ∀ k v, (k, v) ∈ upd → lookupE (updEntries es upd) k = some v := by
  induction upd generalizing es with
  | nil => intro k v hkv; simp at hkv
  | cons e rest ih =>
    obtain ⟨k0, v0⟩ := e
    simp only [List.map_cons, List.nodup_cons, List.mem_map] at hnd
    intro k v hkv
    have hstep : updEntries es ((k0, v0) :: rest) =
        updEntries (setEntry es k0 v0) rest := rfl
    rw [hstep]
    rcases List.mem_cons.mp hkv with hhead | htail
    · simp only [Prod.mk.injEq] at hhead
      obtain ⟨rfl, rfl⟩ := hhead
      rw [lookupE_updEntries_not_mem (setEntry es k v) rest k
        (fun e he hek => hnd.1 ⟨e, he, hek⟩)]
      exact lookupE_setEntry_self es k v
    · exact ih (setEntry es k0 v0) hnd.2 k v htail

/-! ## C10 — `State.__init__` mutates the caller's dict -/

/-- Heap holding one empty caller dict at address 0. -/
def c10Heap : Heap := ⟨[(0, .dict [])], 1⟩

/-- C10 counterexample: the claim quantifies over **every** dictionary `d`,
but for an **empty** caller dict the constructor's `data or {}` normalisation
(an empty dict is falsy in Python) substitutes a fresh dict, so the caller's
dict is not mutated: after `State({}, x=1)` the caller's dict still has no
`"x"` key, even though `kwargs` was non-empty.  The `State` itself receives
the kwargs, as the second conjunct shows. -/
theorem C10_counterexample :
    (stateInit c10Heap (some 0) [("x", .prim (.int 1))]
        Option.none []).1.lookup 0 = some (.dict [])
    ∧ lookupE [] "x" = Option.none
    ∧ (stateInit c10Heap (some 0) [("x", .prim (.int 1))]
        Option.none []).2 = .ok ⟨[("x", .prim (.int 1))], Option.none, []⟩ := by
  exact ⟨rfl, rfl, rfl⟩

/-- C10 (amended): for every **non-empty** caller dict `d` and keyword
arguments, `State.__init__` aliases `d` and applies `initial_data.update(kwargs)`
to it in place, so after construction the caller's dict contains every kwargs
binding (state.py lines 58-61). -/
theorem C10_init_mutates_caller (h : Heap) (a : Nat)
    (es kwargs : List (String × PVal)) (schema : Option SchemaT)
    (shared : List String)
    (hdict : h.lookup a = some (.dict es)) (hne : es ≠ [])
    (hnd : (kwargs.map Prod.fst).Nodup) :
    (stateInit h (some a) kwargs schema shared).1.lookup a =
      some (.dict (updEntries es kwargs))
    ∧ (∀ k v, (k, v) ∈ kwargs →
        lookupE (updEntries es kwargs) k = some v) := by
  constructor
  · simp only [stateInit]
    rw [hdict]
    dsimp only
    rw [if_neg (by simpa [List.isEmpty_iff] using hne)]
    dsimp only
    rw [lookup_set]
    exact if_pos rfl
  · exact lookupE_updEntries_mem es kwargs hnd

/-- C10 witness heap: caller dict `{"y": 0}` at address 0. -/
def c10Heap2 : Heap := ⟨[(0, .dict [("y", .prim (.int 0))])], 1⟩

theorem C10_init_mutates_caller_witness :
    (stateInit c10Heap2 (some 0) [("x", .prim (.int 1))]
        Option.none []).1.lookup 0 =
      some (.dict [("y", .prim (.int 0)), ("x", .prim (.int 1))])
    ∧ (∀ k v, (k, v) ∈ [("x", PVal.prim (.int 1))] →
        lookupE (updEntries [("y", .prim (.int 0))]
          [("x", .prim (.int 1))] ) k = some v) := by
  have := C10_init_mutates_caller c10Heap2 0 [("y", .prim (.int 0))]
    [("x", .prim (.int 1))] Option.none [] rfl (by simp) (by simp)
  exact this

/-! ## C5, C8, C9 — `atomic` and `fork` scopes

In each theorem the body of the `with`-scope is an arbitrary function of the
state and the heap.  The frame hypothesis `hframe` says the body does not
touch the snapshot's private copies (the cells allocated by `_smart_copy`
during scope entry, which Python code inside the scope cannot reach — the
snapshot is a local of the context manager); everything else, including
in-place mutation of the original objects, is unconstrained. -/

/-- C5: `State.atomic()` — if the body raises, on exit every key of the state
is reset to its pre-scope snapshot value (a deep copy carrying the pre-scope
observable content for normal keys, the identical reference for shared keys)
and the same exception object propagates; if the body completes normally the
changes remain, and when a schema is attached the state is re-validated at
scope end (committing the validated entries, or rolling back and raising when
re-validation fails).  Embeds state.py lines 147-160. -/
theorem C5_atomic_scope (f : Nat) (s : StateD) (h : Heap) (body : BodyR)
    (snap : List (String × PVal)) (h1 : Heap)
    (s2 : StateD) (h2 : Heap) (r : Option PyErr)
    (hwf : h.wfB = true) (hbelow : entriesInB 0 h.next s.entries = true)
    (hsc : smartCopy f s.sharedKeys h s.entries = some (snap, h1))
    (hbody : body s h1 = (s2, h2, r))
    (hframe : ∀ a, h.next ≤ a → a < h1.next → h2.lookup a = h1.lookup a) :
    (∀ e, r = some e →
      atomicRun f s h body = some ({ s2 with entries := snap }, h2, some e)
      ∧ (∀ k, k ∈ s.sharedKeys → lookupE snap k = lookupE s.entries k)
      ∧ (∀ k, (lookupE snap k).isSome = (lookupE s.entries k).isSome)
      ∧ (∀ k v, ¬ k ∈ s.sharedKeys → lookupE s.entries k = some v →
          ∃ v', lookupE snap k = some v' ∧ readVal f h2 v' = readVal f h v
            ∧ (readVal f h v).isSome = true))
    ∧ (r = Option.none →
        (s2.schema = Option.none → atomicRun f s h body = some (s2, h2, Option.none))
        ∧ (∀ sch validated, s2.schema = some sch →
            sch s2.entries = .ok validated →
            atomicRun f s h body =
              some ({ s2 with entries := updEntries s2.entries validated },
                h2, Option.none))
        ∧ (∀ sch msg, s2.schema = some sch → sch s2.entries = .error msg →
            atomicRun f s h body =
              some ({ s2 with entries := snap }, h2,
                some (.valueError ("State validation failed: " ++ msg))))) := by
  obtain ⟨ext1, mono1, wf1, clos1, g5, g6, g7⟩ := smartCopy_spec hwf hbelow hsc
  have hcontent : ∀ k v, ¬ k ∈ s.sharedKeys → lookupE s.entries k = some v →
      ∃ v', lookupE snap k = some v' ∧ readVal f h2 v' = readVal f h v
        ∧ (readVal f h v).isSome = true := by
    intro k v hns hl
    obtain ⟨v', hl', hvin, hrd, hso⟩ := g7 k v hns hl
    refine ⟨v', hl', ?_, hso⟩
    have hcg : readVal f h2 v' = readVal f h1 v' := by
      refine readVal_congr h.next h1.next h2 h1
        (fun a hge hlt => hframe a hge hlt)
        (fun a o hge hlt hlk => ?_) f v' hvin
      rw [hframe a hge hlt] at hlk
      exact clos1 a o hge hlk
    rw [hcg, hrd]
  constructor
  · intro e hr
    subst hr
    refine ⟨?_, g5, g6, hcontent⟩
    simp only [atomicRun]
    rw [hsc]
    dsimp only
    rw [hbody]
  · intro hr
    subst hr
    refine ⟨?_, ?_, ?_⟩
    · intro hsch
      simp only [atomicRun]
      rw [hsc]
      dsimp only
      rw [hbody]
      dsimp only
      simp only [runValidate, hsch]
    · intro sch validated hsch hval
      simp only [atomicRun]
      rw [hsc]
      dsimp only
      rw [hbody]
      dsimp only
      simp only [runValidate, hsch, hval]
    · intro sch msg hsch hval
      simp only [atomicRun]
      rw [hsc]
      dsimp only
      rw [hbody]
      dsimp only
      simp only [runValidate, hsch, hval]

/-- C8: `State.fork()` — the snapshot is restored **unconditionally** on scope
exit: on normal completion the body's key changes are discarded, and on an
exception they are likewise discarded and the exception propagates.  As
everywhere, "restored" is per key: a deep copy carrying the pre-scope
observable content for normal keys, the identical reference for shared keys.
Embeds state.py lines 162-172. -/
theorem C8_fork_scope (f : Nat) (s : StateD) (h : Heap) (body : BodyR)
    (snap : List (String × PVal)) (h1 : Heap)
    (s2 : StateD) (h2 : Heap) (r : Option PyErr)
    (hwf : h.wfB = true) (hbelow : entriesInB 0 h.next s.entries = true)
    (hsc : smartCopy f s.sharedKeys h s.entries = some (snap, h1))
    (hbody : body s h1 = (s2, h2, r))
    (hframe : ∀ a, h.next ≤ a → a < h1.next → h2.lookup a = h1.lookup a) :
    forkRun f s h body = some ({ s2 with entries := snap }, h2, r)
    ∧ (∀ k, k ∈ s.sharedKeys → lookupE snap k = lookupE s.entries k)
    ∧ (∀ k, (lookupE snap k).isSome = (lookupE s.entries k).isSome)
    ∧ (∀ k v, ¬ k ∈ s.sharedKeys → lookupE s.entries k = some v →
        ∃ v', lookupE snap k = some v' ∧ readVal f h2 v' = readVal f h v
          ∧ (readVal f h v).isSome = true) := by
  obtain ⟨ext1, mono1, wf1, clos1, g5, g6, g7⟩ := smartCopy_spec hwf hbelow hsc
  refine ⟨?_, g5, g6, ?_⟩
  · simp only [forkRun]
    rw [hsc]
    dsimp only
    rw [hbody]
  · intro k v hns hl
    obtain ⟨v', hl', hvin, hrd, hso⟩ := g7 k v hns hl
    refine ⟨v', hl', ?_, hso⟩
    have hcg : readVal f h2 v' = readVal f h1 v' := by
      refine readVal_congr h.next h1.next h2 h1
        (fun a hge hlt => hframe a hge hlt)
        (fun a o hge hlt hlk => ?_) f v' hvin
      rw [hframe a hge hlt] at hlk
      exact clos1 a o hge hlk
    rw [hcg, hrd]

/-- C9: the rollback of `atomic()` (on an exception) and of `fork()` restores
only the key-to-value mapping, and `_smart_copy` snapshots shared keys **by
reference**: a shared key still maps to the very same address after rollback,
and the rollback does not touch the heap, so an in-place mutation of the
shared object performed inside the scope (visible in `h2`) remains visible
after exit; non-shared keys are restored to their deep-copied pre-scope
content.  Embeds state.py lines 118-126, 147-160, 162-172. -/
theorem C9_rollback_is_shallow_for_shared_keys (f : Nat) (s : StateD)
    (h : Heap) (body : BodyR) (snap : List (String × PVal)) (h1 : Heap)
    (s2 : StateD) (h2 : Heap) (k : String) (a : Nat)
    (hwf : h.wfB = true) (hbelow : entriesInB 0 h.next s.entries = true)
    (hsc : smartCopy f s.sharedKeys h s.entries = some (snap, h1))
    (hshared : k ∈ s.sharedKeys)
    (hkv : lookupE s.entries k = some (.ref a)) :
    -- after rollback the shared key still holds the identical reference,
    -- and both scope runners return the body's heap unchanged, so whatever
    -- the body stored at `a` in place is what the state observes afterwards
    lookupE snap k = some (.ref a)
    ∧ (∀ e s2' h2', body s h1 = (s2', h2', some e) →
        atomicRun f s h body = some ({ s2' with entries := snap }, h2', some e))
    ∧ (∀ r s2' h2', body s h1 = (s2', h2', r) →
        forkRun f s h body = some ({ s2' with entries := snap }, h2', r))
    ∧ (∀ s2' h2' r, body s h1 = (s2', h2', r) →
        (∀ b, h.next ≤ b → b < h1.next → h2'.lookup b = h1.lookup b) →
        ∀ j v, ¬ j ∈ s.sharedKeys → lookupE s.entries j = some v →
          ∃ v', lookupE snap j = some v' ∧ readVal f h2' v' = readVal f h v) := by
  obtain ⟨ext1, mono1, wf1, clos1, g5, g6, g7⟩ := smartCopy_spec hwf hbelow hsc
  refine ⟨by rw [g5 k hshared]; exact hkv, ?_, ?_, ?_⟩
  · intro e s2' h2' hbody
    simp only [atomicRun]
    rw [hsc]
    dsimp only
    rw [hbody]
  · intro r s2' h2' hbody
    simp only [forkRun]
    rw [hsc]
    dsimp only
    rw [hbody]
  · intro s2' h2' r _ hframe j v hns hl
    obtain ⟨v', hl', hvin, hrd, _⟩ := g7 j v hns hl
    refine ⟨v', hl', ?_⟩
    have hcg : readVal f h2' v' = readVal f h1 v' := by
      refine readVal_congr h.next h1.next h2' h1
        (fun b hge hlt => hframe b hge hlt)
        (fun b o hge hlt hlk => ?_) f v' hvin
      rw [hframe b hge hlt] at hlk
      exact clos1 b o hge hlk
    rw [hcg, hrd]

/-- **C6 (amended).**  For every schema-**free** State, `State.clone()`
returns an independent copy.  A shared key is carried over by reference
(`clone.k is s.k` — the same address); every other key is deep-copied: the
clone's value reads to the same content, mutating any object the clone can
reach (a fresh address, at or above `h.next`) leaves every original value
unchanged, and mutating any pre-existing object (an address below `h.next`)
leaves the clone's value unchanged.  The schema-free hypothesis is necessary,
not a convenience: with a schema attached, the constructor `clone()` calls
re-validates (state.py lines 69-70), and `validate()` overwrites the content
with pydantic's `model_dump()` (lines 77-78), whose reconstruction may
replace values — including shared-key values, breaking `clone.k is s.k`; see
the counterexample.  Embeds state.py lines 118-133. -/
theorem C6_clone_independent (f : Nat) (s : StateD) (h : Heap)
    (snap : List (String × PVal)) (h1 : Heap)
    (hwf : h.wfB = true) (hbelow : entriesInB 0 h.next s.entries = true)
    (hschema : s.schema = Option.none)
    (hsc : smartCopy f s.sharedKeys h s.entries = some (snap, h1)) :
    cloneRun f s h = some (.ok (⟨snap, s.schema, s.sharedKeys⟩, h1))
    ∧ (∀ k, k ∈ s.sharedKeys → lookupE snap k = lookupE s.entries k)
    ∧ (∀ k, (lookupE snap k).isSome = (lookupE s.entries k).isSome)
    ∧ (∀ k v, ¬ k ∈ s.sharedKeys → lookupE s.entries k = some v →
        ∃ v', lookupE snap k = some v'
          ∧ readVal f h1 v' = readVal f h v
          ∧ (readVal f h v).isSome = true
          ∧ (∀ b o, h.next ≤ b → readVal f (h1.set b o) v = readVal f h v)
          ∧ (∀ b o, b < h.next → readVal f (h1.set b o) v' = readVal f h1 v')) := by
  obtain ⟨ext1, mono1, wf1, clos1, g5, g6, g7⟩ := smartCopy_spec hwf hbelow hsc
  refine ⟨?_, g5, g6, ?_⟩
  · simp only [cloneRun]
    rw [hsc]
    dsimp only
    simp only [runValidate, hschema]
  · intro k v hns hl
    obtain ⟨v', hl', hvin, hrd, hso⟩ := g7 k v hns hl
    have hvbelow : valInB 0 h.next v = true := lookupE_inB hbelow hl
    refine ⟨v', hl', hrd, hso, ?_, ?_⟩
    · intro b o hb
      have hstep : readVal f (h1.set b o) v = readVal f h1 v := by
        refine readVal_congr 0 h.next (h1.set b o) h1
          (fun c _ hclt => ?_) (fun c oc _ hclt hlk => ?_) f v hvbelow
        · rw [lookup_set]
          exact if_neg (by omega)
        · rw [lookup_set, if_neg (by omega : ¬ b = c)] at hlk
          rw [ext1 c hclt] at hlk
          exact (wfB_lookup hwf hlk).2
      rw [hstep]
      exact readVal_extend hwf ext1 hvbelow
    · intro b o hb
      refine readVal_congr h.next h1.next (h1.set b o) h1
        (fun c hcge hclt => ?_) (fun c oc hcge hclt hlk => ?_) f v' hvin
      · rw [lookup_set]
        exact if_neg (by omega)
      · rw [lookup_set, if_neg (by omega : ¬ b = c)] at hlk
        exact clos1 c oc hcge hlk

/-! ### Concrete witnesses for the scope theorems -/

/-- Witness heap: a nested dict `{"x": 1}` at address 0 and a shared list
`["initial"]` at address 1. -/
def wHeap : Heap :=
  ⟨[(0, .dict [("x", .prim (.int 1))]), (1, .list [.prim (.str "initial")])], 2⟩

/-- Witness state: `{"count": 0, "nested": {...@0}, "db": [...]@1}` with
`shared_keys={"db"}` and no schema. -/
def wEntries : List (String × PVal) :=
  [("count", .prim (.int 0)), ("nested", .ref 0), ("db", .ref 1)]

def wState : StateD := ⟨wEntries, Option.none, ["db"]⟩

/-- The `_smart_copy` snapshot of `wState` in `wHeap`: `count` copied as a
value, `nested` deep-copied to the fresh address 2, `db` kept by reference. -/
def wSnap : List (String × PVal) :=
  [("count", .prim (.int 0)), ("nested", .ref 2), ("db", .ref 1)]

def wHeap1 : Heap :=
  ⟨[(2, .dict [("x", .prim (.int 1))]), (0, .dict [("x", .prim (.int 1))]),
    (1, .list [.prim (.str "initial")])], 3⟩

theorem wSmartCopy : smartCopy 3 wState.sharedKeys wHeap wState.entries =
    some (wSnap, wHeap1) := by
  simp [smartCopy, deepcopyVal, deepcopyEntries, wHeap, wHeap1, wEntries,
    wSnap, wState, Heap.lookup, Heap.alloc, List.find?]

/-- A body that sets `count` to 100 and then raises `ValueError("Oops")`. -/
def wBodyRaise : BodyR := fun st hp =>
  ({ st with entries := setEntry st.entries "count" (.prim (.int 100)) },
    hp, some (.valueError "Oops"))

theorem C5_atomic_scope_witness :
    atomicRun 3 wState wHeap wBodyRaise =
      some (⟨wSnap, Option.none, ["db"]⟩, wHeap1, some (.valueError "Oops")) := by
  have h := C5_atomic_scope 3 wState wHeap wBodyRaise wSnap wHeap1
    ({ wState with
        entries := setEntry wState.entries "count" (.prim (.int 100)) })
    wHeap1 (some (.valueError "Oops"))
    (by rfl) (by rfl) wSmartCopy (by rfl) (fun a _ _ => rfl)
  exact (h.1 (.valueError "Oops") rfl).1

/-- A body that sets `count` to 100 and completes normally. -/
def wBodyOk : BodyR := fun st hp =>
  ({ st with entries := setEntry st.entries "count" (.prim (.int 100)) },
    hp, Option.none)

theorem C8_fork_scope_witness :
    forkRun 3 wState wHeap wBodyOk =
      some (⟨wSnap, Option.none, ["db"]⟩, wHeap1, Option.none) := by
  have h := C8_fork_scope 3 wState wHeap wBodyOk wSnap wHeap1
    ({ wState with
        entries := setEntry wState.entries "count" (.prim (.int 100)) })
    wHeap1 Option.none
    (by rfl) (by rfl) wSmartCopy (by rfl) (fun a _ _ => rfl)
  exact h.1

/-- A body that mutates the shared list at address 1 **in place** (appending
`"modified"`) and then raises. -/
def wBodyShared : BodyR := fun st hp =>
  (st, hp.set 1 (.list [.prim (.str "initial"), .prim (.str "modified")]),
    some (.valueError "Crash"))

def wHeap2 : Heap :=
  wHeap1.set 1 (.list [.prim (.str "initial"), .prim (.str "modified")])

theorem C9_rollback_is_shallow_for_shared_keys_witness :
    lookupE wSnap "db" = some (.ref 1)
    ∧ atomicRun 3 wState wHeap wBodyShared =
        some (⟨wSnap, Option.none, ["db"]⟩, wHeap2, some (.valueError "Crash"))
    ∧ wHeap2.lookup 1 =
        some (.list [.prim (.str "initial"), .prim (.str "modified")]) := by
  have h := C9_rollback_is_shallow_for_shared_keys 3 wState wHeap wBodyShared
    wSnap wHeap1 wState wHeap2 "db" 1
    (by rfl) (by rfl) wSmartCopy (by simp [wState]) (by rfl)
  exact ⟨h.1, h.2.1 (.valueError "Crash") wState wHeap2 rfl, rfl⟩

theorem C6_clone_independent_witness :
    cloneRun 3 wState wHeap =
      some (.ok (⟨wSnap, Option.none, ["db"]⟩, wHeap1)) := by
  have h := C6_clone_independent 3 wState wHeap wSnap wHeap1
    (by rfl) (by rfl) rfl wSmartCopy
  exact h.1

/-- Heap for the C6 counterexample: the caller's shared list at address 1,
and the list object pydantic's reconstruction of the field yields at
address 0. -/
def c6heap : Heap :=
  ⟨[(0, .list [.prim (.str "rebuilt")]), (1, .list [.prim (.str "initial")])],
   2⟩

/-- A pydantic schema with a `db` container field, as an oracle: validation
succeeds, but `model_dump()` returns a **rebuilt** value for `db` — a
different object (the one at address 0) rather than the input one, as
pydantic does when it reconstructs container fields. -/
def c6schema : SchemaT := fun es => .ok (setEntry es "db" (.ref 0))

/-- A schema-attached State whose only key `db` is shared. -/
def c6state : StateD := ⟨[("db", .ref 1)], some c6schema, ["db"]⟩

/-- **C6 counterexample.**  The claim quantifies over *every* State, but for
a schema-attached State it fails: `clone()` builds the new State through
`__init__`, which re-validates because a schema is present (state.py lines
69-70), and `validate()` overwrites the dict content with pydantic's
`model_dump()` (lines 77-78).  When that reconstruction rebuilds the shared
`db` field — here to the object at address 0 — the clone's `db` is a
different object from `s.db` (address 1), refuting `clone.db is s.db` even
though `db` is in the shared-key set and `_smart_copy` had carried it over
by reference. -/
theorem C6_counterexample :
    cloneRun 3 c6state c6heap
      = some (.ok (⟨[("db", .ref 0)], some c6schema, ["db"]⟩, c6heap))
    ∧ lookupE c6state.entries "db" = some (.ref 1)
    ∧ lookupE [("db", PVal.ref 0)] "db" = some (.ref 0)
    ∧ PVal.ref 0 ≠ PVal.ref 1 :=
  ⟨rfl, rfl, rfl, by decide⟩

/-! ## The YAML document model and `FlowValidator` (`src/lingo/flow_validator.py`)

Documents are the values `yaml.safe_load` produces: strings, booleans,
integers, lists and string-keyed mappings.  (YAML also allows non-string
mapping keys and floats; none of the embedded code paths distinguish them.)
Python's duck-typed membership tests (`"k" in x` on a non-dict) are modelled
as `false`; the validator only reaches them behind `isinstance` checks, except
where a comment says otherwise. -/

inductive Doc where
  | str (s : String)
  | bool (b : Bool)
  | int (n : Int)
  | list (xs : List Doc)
  | dict (kvs : List (String × Doc))

/-- Association lookup in a dict document (Python `d[k]` / `d.get(k)`). -/
def lookupD (kvs : List (String × Doc)) (k : String) : Option Doc :=
  (kvs.find? (fun e => e.1 = k)).map (fun e => e.2)

def Doc.lookup? : Doc → String → Option Doc
  | .dict kvs, k => lookupD kvs k
  | _, _ => none

/-- Python `k in d` for a dict; `false` on other documents. -/
def Doc.hasKey : Doc → String → Bool
  | .dict kvs, k => kvs.any (fun e => e.1 = k)
  | _, _ => false

def Doc.isStr : Doc → Bool
  | .str _ => true
  | _ => false

def Doc.isList : Doc → Bool
  | .list _ => true
  | _ => false

def Doc.isDict : Doc → Bool
  | .dict _ => true
  | _ => false

/-- How a document is interpolated into an f-string error message.  Strings,
booleans and integers print as in Python; container reprs are abbreviated
(no claim depends on them). -/
def Doc.pyStr : Doc → String
  | .str s => s
  | .bool b => if b then "True" else "False"
  | .int n => toString n
  | .list _ => "[...]"
  | .dict _ => "\x7b...\x7d"

/-- Single-quote a string, as the validator's f-strings do. -/
def sq (s : String) : String := "'" ++ s ++ "'"

/-- `VALID_NODE_TYPES` (flow_validator.py lines 17-20), in literal order. -/
def validNodeTypes : List String :=
  ["append", "prepend", "reply", "invoke", "noop",
   "create", "sequence", "decide", "choose", "route"]

/-- `NODE_REQUIREMENTS` (flow_validator.py lines 23-34).  Python stores the
required fields as sets; the iteration order of a set literal is unspecified,
so the order below (the literal order) fixes one of the admissible orders of
the per-field error messages. -/
def nodeRequirements : String → Option (List String)
  | "append" => some ["message"]
  | "prepend" => some ["message"]
  | "reply" => some ["instructions"]
  | "invoke" => some ["tools"]
  | "create" => some ["model", "instructions"]
  | "sequence" => some ["nodes"]
  | "decide" => some ["on_true", "on_false", "instructions"]
  | "choose" => some ["choices", "instructions"]
  | "route" => some ["flows"]
  | "noop" => some []
  | _ => none

/-- Lexicographic code-point comparison on character lists — the order
Python's `sorted` uses on strings (spelled out so it computes by `rfl`). -/
def charsLe : List Char → List Char → Bool
  | [], _ => true
  | _ :: _, [] => false
  | a :: as, b :: bs => if a = b then charsLe as bs else decide (a < b)

def strLe (a b : String) : Bool := charsLe a.data b.data

/-- Python's `sorted` on strings: insertion sort by the lexicographic order. -/
def insortStr (s : String) : List String → List String
  | [] => [s]
  | t :: ts => if strLe s t then s :: t :: ts else t :: insortStr s ts

def sortStrs : List String → List String
  | [] => []
  | s :: ss => insortStr s (sortStrs ss)

/-- The `", ".join(sorted(VALID_NODE_TYPES))` of the invalid-type message. -/
def validTypesJoined : String :=
  String.intercalate ", " (sortStrs validNodeTypes)

/-- Embeds `FlowValidator._validate_message` (lines 167-197). -/
def validateMessage (message : Doc) (context : String) : List String :=
  match message with
  | .dict kvs =>
    (if (Doc.dict kvs).hasKey "role" then []
     else [context ++ ": Message missing " ++ sq "role" ++ " field"])
    ++ (if (Doc.dict kvs).hasKey "content" then []
     else [context ++ ": Message missing " ++ sq "content" ++ " field"])
    ++ (match lookupD kvs "role" with
      | some role =>
        -- `role not in {"system", "user", "assistant", "tool"}`; the join of
        -- this set literal is written in literal order (see nodeRequirements)
        match role with
        | .str r =>
          if r = "system" ∨ r = "user" ∨ r = "assistant" ∨ r = "tool" then []
          else [context ++ ": Invalid role " ++ sq r
            ++ ". Must be one of: system, user, assistant, tool"]
        | other => [context ++ ": Invalid role " ++ sq other.pyStr
            ++ ". Must be one of: system, user, assistant, tool"]
      | none => [])
    ++ (match lookupD kvs "content" with
      | some (.dict ckvs) =>
        if ¬ (Doc.dict ckvs).hasKey "type" then
          [context ++ ": Message content missing " ++ sq "type" ++ " field"]
        else match lookupD ckvs "type" with
          | some (.str t) =>
            if t = "string" ∨ t = "dict" ∨ t = "list" ∨ t = "pydantic_model"
            then []
            else [context ++ ": Invalid content type " ++ sq t]
          | some other => [context ++ ": Invalid content type " ++ sq other.pyStr]
          | none => []
      | _ => [])
  | _ => [context ++ ": " ++ sq "message" ++ " must be a dictionary"]

/-- One instruction of `_validate_instructions` (lines 210-219). -/
def validateInstruction (inst : Doc) (context : String) (i : Nat) : List String :=
  match inst with
  | .dict kvs =>
    if ¬ (Doc.dict kvs).hasKey "type" then
      [context ++ ": Instruction " ++ toString i ++ " missing " ++ sq "type"
        ++ " field"]
    else match lookupD kvs "type" with
      | some (.str t) =>
        if t = "string" then []
        else if t = "message" then
          validateMessage ((lookupD kvs "value").getD (.dict []))
            (context ++ " instruction " ++ toString i)
        else [context ++ ": Instruction " ++ toString i
          ++ " has invalid type " ++ sq t]
      | some other => [context ++ ": Instruction " ++ toString i
          ++ " has invalid type " ++ sq other.pyStr]
      | none => []
  | .str _ => []
  | _ => [context ++ ": Instruction " ++ toString i
      ++ " must be string or dictionary"]

def validateInstructionsAux (context : String) (i : Nat) :
    List Doc → List String
  | [] => []
  | inst :: rest =>
    validateInstruction inst context i
      ++ validateInstructionsAux context (i + 1) rest

/-- Embeds `FlowValidator._validate_instructions` (lines 199-221). -/
def validateInstructions (instructions : Doc) (context : String) :
    List String :=
  match instructions with
  | .list xs =>
    (if xs.isEmpty then
      [context ++ ": " ++ sq "instructions" ++ " list cannot be empty"]
     else [])
    ++ validateInstructionsAux context 0 xs
  | _ => [context ++ ": " ++ sq "instructions" ++ " must be a list"]

/-- One tool of `_validate_tools` (lines 234-265); the per-type required-field
sets are iterated in literal order. -/
def validateTool (tool : Doc) (context : String) (i : Nat) : List String :=
  match tool with
  | .dict kvs =>
    if ¬ (Doc.dict kvs).hasKey "type" then
      [context ++ ": Tool " ++ toString i ++ " missing " ++ sq "type"
        ++ " field"]
    else match lookupD kvs "type" with
      | some (.str t) =>
        if t = "registered" then
          if (Doc.dict kvs).hasKey "name" then []
          else [context ++ ": Tool " ++ toString i
            ++ " (registered): Missing " ++ sq "name" ++ " field"]
        else if t = "delegate_tool" then
          (["name", "description", "target_module", "target_name"].filter
            (fun fld => ¬ (Doc.dict kvs).hasKey fld)).map
            (fun fld => context ++ ": Tool " ++ toString i
              ++ " (delegate_tool): Missing " ++ sq fld ++ " field")
        else if t = "custom_tool" then
          (["name", "description", "class"].filter
            (fun fld => ¬ (Doc.dict kvs).hasKey fld)).map
            (fun fld => context ++ ": Tool " ++ toString i
              ++ " (custom_tool): Missing " ++ sq fld ++ " field")
        else [context ++ ": Tool " ++ toString i ++ " has invalid type "
          ++ sq t]
      | some other => [context ++ ": Tool " ++ toString i
          ++ " has invalid type " ++ sq other.pyStr]
      | none => []
  | _ => [context ++ ": Tool " ++ toString i ++ " must be a dictionary"]

def validateToolsAux (context : String) (i : Nat) : List Doc → List String
  | [] => []
  | tool :: rest =>
    validateTool tool context i ++ validateToolsAux context (i + 1) rest

/-- Embeds `FlowValidator._validate_tools` (lines 223-267). -/
def validateTools (tools : Doc) (context : String) : List String :=
  match tools with
  | .list xs =>
    (if xs.isEmpty then
      [context ++ ": " ++ sq "tools" ++ " list cannot be empty"]
     else [])
    ++ validateToolsAux context 0 xs
  | _ => [context ++ ": " ++ sq "tools" ++ " must be a list"]

/-- Embeds `FlowValidator._validate_model` (lines 269-282); the required-field
set `{"module", "name"}` is iterated in literal order. -/
def validateModel (model : Doc) (context : String) : List String :=
  match model with
  | .dict _ =>
    (["module", "name"].filter (fun fld => ¬ model.hasKey fld)).map
      (fun fld => context ++ ": Model missing " ++ sq fld ++ " field")
  | _ => [context ++ ": " ++ sq "model" ++ " must be a dictionary"]

/-- Embeds `FlowValidator._validate_top_level` (lines 57-78). -/
def validateTopLevel (data : Doc) : List String :=
  (if data.hasKey "name" then []
   else ["Missing required field: " ++ sq "name"])
  ++ (if data.hasKey "nodes" then []
   else ["Missing required field: " ++ sq "nodes"])
  ++ (match data.lookup? "name" with
    | some v => if v.isStr then [] else ["Field " ++ sq "name"
        ++ " must be a string"]
    | none => [])
  ++ (match data.lookup? "description" with
    | some v => if v.isStr then [] else ["Field " ++ sq "description"
        ++ " must be a string if present"]
    | none => [])
  ++ (match data.lookup? "nodes" with
    | some v => if v.isList then [] else ["Field " ++ sq "nodes"
        ++ " must be a list"]
    | none => [])

theorem sizeOf_lookupD {kvs : List (String × Doc)} {k : String} {v : Doc}
    (h : lookupD kvs k = some v) : sizeOf v < sizeOf kvs := by
  simp only [lookupD, Option.map_eq_some'] at h
  obtain ⟨c, hc, hco⟩ := h
  have h1 : sizeOf c < sizeOf kvs :=
    List.sizeOf_lt_of_mem (List.mem_of_find?_eq_some hc)
  obtain ⟨ck, cv⟩ := c
  simp only at hco
  subst hco
  simp only [Prod.mk.sizeOf_spec] at h1
  omega

theorem sizeOf_lookup? {d : Doc} {k : String} {v : Doc}
    (h : d.lookup? k = some v) : sizeOf v < sizeOf d := by
  cases d with
  | str s => simp [Doc.lookup?] at h
  | bool b => simp [Doc.lookup?] at h
  | int n => simp [Doc.lookup?] at h
  | list xs => simp [Doc.lookup?] at h
  | dict kvs =>
    have := sizeOf_lookupD h
    simp only [Doc.dict.sizeOf_spec]
    omega

/-! The node-level validator: mutual recursive descent mirroring
`_validate_single_node`, `_validate_nodes`, `_validate_nodes_in_sequence`,
`_validate_choices` and `_validate_flows` (flow_validator.py lines 80-354). -/

/-- The invalid-`type` diagnostic of `_validate_single_node` (lines 105-111):
an unrecognised type is reported with the full sorted catalogue of valid
types — the source computes no similarity-based suggestion. -/
def invalidTypeErrors (node : Doc) (index : String) : List String :=
  match node.lookup? "type" with
  | some (.str t) =>
    if validNodeTypes.contains t then []
    else ["Node " ++ index ++ ": Invalid type " ++ sq t
      ++ ". Must be one of: " ++ validTypesJoined]
  | some other =>
    ["Node " ++ index ++ ": Invalid type " ++ sq other.pyStr
      ++ ". Must be one of: " ++ validTypesJoined]
  | none => []

/-- The required-field loop of `_validate_single_node` (lines 113-118): one
diagnostic per missing required field of the node's type. -/
def requiredFieldErrors (node : Doc) (index : String) : List String :=
  match node.lookup? "type" with
  | some (.str t) =>
    (match nodeRequirements t with
     | some req =>
       (req.filter (fun fld => ¬ node.hasKey fld)).map
         (fun fld => "Node " ++ index ++ " (" ++ t
           ++ "): Missing required field " ++ sq fld)
     | none => [])
  | _ => []

mutual
/-- The node-type-specific checks of `_validate_single_node` (lines
120-164). -/
def nodeSpecificErrors (node : Doc) (index : String) : List String :=
  match node.lookup? "type" with
  | some (.str t) =>
    if t = "append" then
      (match node.lookup? "message" with
       | some m => validateMessage m ("Node " ++ index ++ " (append)")
       | none => [])
    else if t = "prepend" then
      (match node.lookup? "message" with
       | some m => validateMessage m ("Node " ++ index ++ " (prepend)")
       | none => [])
    else if t = "reply" then
      (match node.lookup? "instructions" with
       | some ins => validateInstructions ins ("Node " ++ index ++ " (reply)")
       | none => [])
    else if t = "invoke" then
      (match node.lookup? "tools" with
       | some ts => validateTools ts ("Node " ++ index ++ " (invoke)")
       | none => [])
    else if t = "create" then
      (match node.lookup? "model" with
       | some m => validateModel m ("Node " ++ index ++ " (create)")
       | none => [])
      ++ (match node.lookup? "instructions" with
       | some ins => validateInstructions ins ("Node " ++ index ++ " (create)")
       | none => [])
    else if t = "sequence" then
      (match hns : node.lookup? "nodes" with
       | some ns => validateSeqNodes ns ("Node " ++ index ++ " (sequence)")
       | none => [])
    else if t = "decide" then
      (match hot : node.lookup? "on_true" with
       | some ot => validateSingleNode ot (index ++ ".on_true")
       | none => [])
      ++ (match hof : node.lookup? "on_false" with
       | some onf => validateSingleNode onf (index ++ ".on_false")
       | none => [])
      ++ (match node.lookup? "instructions" with
       | some ins => validateInstructions ins ("Node " ++ index ++ " (decide)")
       | none => [])
    else if t = "choose" then
      (match hch : node.lookup? "choices" with
       | some cs => validateChoicesDoc cs ("Node " ++ index ++ " (choose)")
       | none => [])
      ++ (match node.lookup? "instructions" with
       | some ins => validateInstructions ins ("Node " ++ index ++ " (choose)")
       | none => [])
    else if t = "route" then
      (match hfl : node.lookup? "flows" with
       | some fs => validateFlowsDoc fs ("Node " ++ index ++ " (route)")
       | none => [])
    else []
  | _ => []
termination_by (sizeOf node, 1)
decreasing_by
  all_goals simp_wf
  all_goals apply Prod.Lex.left
  · exact Nat.lt_of_lt_of_le (sizeOf_lookup? hns) (le_refl _)
  · exact Nat.lt_of_lt_of_le (sizeOf_lookup? hot) (le_refl _)
  · exact Nat.lt_of_lt_of_le (sizeOf_lookup? hof) (le_refl _)
  · exact Nat.lt_of_lt_of_le (sizeOf_lookup? hch) (le_refl _)
  · exact Nat.lt_of_lt_of_le (sizeOf_lookup? hfl) (le_refl _)

/-- Embeds `FlowValidator._validate_single_node` (lines 94-165).  `index` is
the location prefix: the stringification of the position for top-level nodes,
or a context-qualified path for nested ones. -/
def validateSingleNode (node : Doc) (index : String) : List String :=
  if ¬ node.hasKey "type" then
    ["Node " ++ index ++ ": Missing " ++ sq "type" ++ " field"]
  else
    invalidTypeErrors node index
    ++ requiredFieldErrors node index
    ++ nodeSpecificErrors node index
termination_by (sizeOf node, 2)
decreasing_by
  simp_wf
  apply Prod.Lex.right
  omega

/-- The enumeration loop of `_validate_nodes` (lines 88-90). -/
def validateNodesAux (i : Nat) (ns : List Doc) : List String :=
  match ns with
  | [] => []
  | n :: rest =>
    validateSingleNode n (toString i) ++ validateNodesAux (i + 1) rest
termination_by (sizeOf ns, 0)
decreasing_by
  all_goals simp_wf
  all_goals apply Prod.Lex.left
  all_goals omega

/-- Embeds `FlowValidator._validate_nodes` (lines 80-92). -/
def validateNodes (ns : List Doc) : List String :=
  if ns.isEmpty then [sq "nodes" ++ " list cannot be empty"]
  else validateNodesAux 0 ns
termination_by (sizeOf ns, 1)
decreasing_by
  simp_wf
  apply Prod.Lex.right
  omega

/-- Embeds `FlowValidator._validate_nodes_in_sequence` (lines 284-300). -/
def validateSeqNodes (nodes : Doc) (context : String) : List String :=
  match nodes with
  | .list ns =>
    (if ns.isEmpty then
      [context ++ ": Sequence " ++ sq "nodes" ++ " list cannot be empty"]
     else [])
    ++ validateSeqAux context 0 ns
  | _ => [context ++ ": " ++ sq "nodes" ++ " must be a list"]
termination_by (sizeOf nodes, 0)
decreasing_by
  simp_wf
  apply Prod.Lex.left
  omega

def validateSeqAux (context : String) (i : Nat) (ns : List Doc) : List String :=
  match ns with
  | [] => []
  | n :: rest =>
    validateSingleNode n (context ++ ".node[" ++ toString i ++ "]")
      ++ validateSeqAux context (i + 1) rest
termination_by (sizeOf ns, 0)
decreasing_by
  all_goals simp_wf
  all_goals apply Prod.Lex.left
  all_goals omega

/-- Embeds `FlowValidator._validate_choices` (lines 302-325).  Keys of a
`Doc.dict` are strings by construction, so the source's "Choice key must be
string" branch (for YAML mappings with non-string keys) has no counterpart
here. -/
def validateChoicesDoc (choices : Doc) (context : String) : List String :=
  match choices with
  | .dict kvs =>
    (if kvs.isEmpty then
      [context ++ ": " ++ sq "choices" ++ " dictionary cannot be empty"]
     else [])
    ++ validateChoicesAux context kvs
  | _ => [context ++ ": " ++ sq "choices" ++ " must be a dictionary"]
termination_by (sizeOf choices, 0)
decreasing_by
  simp_wf
  apply Prod.Lex.left
  omega

def validateChoicesAux (context : String) (kvs : List (String × Doc)) :
    List String :=
  match kvs with
  | [] => []
  | (key, value) :: rest =>
    (if value.isDict then
       validateSingleNode value (context ++ ".choice[" ++ sq key ++ "]")
     else [context ++ ": Choice " ++ sq key
         ++ " value must be a dictionary"])
    ++ validateChoicesAux context rest
termination_by (sizeOf kvs, 0)
decreasing_by
  all_goals simp_wf
  all_goals apply Prod.Lex.left
  all_goals omega

/-- Embeds `FlowValidator._validate_flows` (lines 327-354). -/
def validateFlowsDoc (flows : Doc) (context : String) : List String :=
  match flows with
  | .list fs =>
    (if fs.length < 2 then
      [context ++ ": Route needs at least 2 flows, got " ++ toString fs.length]
     else [])
    ++ validateFlowsAux context 0 fs
  | _ => [context ++ ": " ++ sq "flows" ++ " must be a list"]
termination_by (sizeOf flows, 0)
decreasing_by
  simp_wf
  apply Prod.Lex.left
  omega

def validateFlowsAux (context : String) (i : Nat) (fs : List Doc) :
    List String :=
  match fs with
  | [] => []
  | fl :: rest =>
    (if fl.isDict then
       ((validateTopLevel fl).map
         (fun e => context ++ " flow " ++ toString i ++ ": " ++ e))
       ++ (match hns : fl.lookup? "nodes" with
         | some (.list ns) =>
           ((validateNodes ns).map
             (fun e => context ++ " flow " ++ toString i ++ ": " ++ e))
         | some _ =>
           -- the source passes flow["nodes"] to _validate_nodes unguarded;
           -- on a non-list Python would iterate it duck-typed (or raise
           -- TypeError), which is outside the document model and unreachable
           -- for documents whose top-level diagnostics are acted upon
           []
         | none => [])
     else [context ++ ": Flow " ++ toString i ++ " must be a dictionary"])
    ++ validateFlowsAux context (i + 1) rest
termination_by (sizeOf fs, 0)
decreasing_by
  all_goals simp_wf
  all_goals apply Prod.Lex.left
  · have h1 := sizeOf_lookup? hns
    simp only [Doc.list.sizeOf_spec] at h1
    omega
  · omega
end

/-- Embeds `FlowValidator.validate_yaml` (lines 36-55): collect the top-level
diagnostics, and only when there are none, validate the nodes. -/
def validateYaml (d : Doc) : List String :=
  let errors := validateTopLevel d
  if d.hasKey "nodes" ∧ errors = [] then
    errors ++ (match d.lookup? "nodes" with
      | some (.list ns) => validateNodes ns
      | _ => [])
  else errors

/-! ## C3 — does one `validate_yaml` call surface every missing field? -/

/-- Number of missing required top-level fields (`name`, `nodes`). -/
def missingTopCount (d : Doc) : Nat :=
  (if d.hasKey "name" then 0 else 1) + (if d.hasKey "nodes" then 0 else 1)

/-- Number of missing required fields of a single node-document: the `type`
field itself, or the fields `NODE_REQUIREMENTS` lists for its type. -/
def nodeMissingCount (node : Doc) : Nat :=
  if ¬ node.hasKey "type" then 1
  else match node.lookup? "type" with
    | some (.str t) =>
      (match nodeRequirements t with
       | some req => (req.filter (fun fld => ¬ node.hasKey fld)).length
       | none => 0)
    | _ => 0

theorem validateTopLevel_count (d : Doc) :
    missingTopCount d ≤ (validateTopLevel d).length := by
  simp only [validateTopLevel, missingTopCount, List.length_append]
  by_cases h1 : d.hasKey "name" <;> by_cases h2 : d.hasKey "nodes" <;>
    simp [h1, h2] <;> omega

theorem validateSingleNode_count (node : Doc) (index : String) :
    nodeMissingCount node ≤ (validateSingleNode node index).length := by
  rw [validateSingleNode]
  by_cases h1 : node.hasKey "type"
  · rw [if_neg (by simp [h1])]
    simp only [List.length_append]
    have hkey : nodeMissingCount node ≤ (requiredFieldErrors node index).length := by
      simp only [nodeMissingCount, requiredFieldErrors]
      rw [if_neg (by simp [h1])]
      cases hty : node.lookup? "type" with
      | none => simp
      | some t =>
        cases t with
        | str s =>
          cases hreq : nodeRequirements s with
          | none => simp [hreq]
          | some req => simp [hreq, List.length_map]
        | bool b => simp
        | int n => simp
        | list xs => simp
        | dict kvs => simp
    omega
  · rw [if_pos (by simp [h1])]
    simp [nodeMissingCount, h1]

theorem validateNodesAux_count (ns : List Doc) :
    ∀ i, (ns.map nodeMissingCount).sum ≤ (validateNodesAux i ns).length := by
  induction ns with
  | nil => intro i; rw [validateNodesAux]; simp
  | cons n rest ih =>
    intro i
    rw [validateNodesAux]
    simp only [List.map_cons, List.sum_cons, List.length_append]
    have := validateSingleNode_count n (toString i)
    have := ih (i + 1)
    omega

theorem validateNodes_count (ns : List Doc) :
    (ns.map nodeMissingCount).sum ≤ (validateNodes ns).length := by
  rw [validateNodes]
  by_cases he : ns.isEmpty
  · rw [List.isEmpty_iff] at he
    subst he
    simp
  · rw [if_neg (by simpa using he)]
    exact validateNodesAux_count ns 0

theorem validateTopLevel_empty {d : Doc} (h : validateTopLevel d = []) :
    d.hasKey "name" = true ∧ d.hasKey "nodes" = true := by
  simp only [validateTopLevel, List.append_eq_nil] at h
  obtain ⟨⟨⟨⟨h1, h2⟩, _⟩, _⟩, _⟩ := h
  constructor
  · by_cases hc : d.hasKey "name"
    · exact hc
    · rw [if_neg (by simp [hc])] at h1
      exact absurd h1 (by simp)
  · by_cases hc : d.hasKey "nodes"
    · exact hc
    · rw [if_neg (by simp [hc])] at h2
      exact absurd h2 (by simp)

theorem hasKey_of_lookup? {d : Doc} {k : String} {v : Doc}
    (h : d.lookup? k = some v) : d.hasKey k = true := by
  cases d with
  | dict kvs =>
    simp only [Doc.lookup?, lookupD, Option.map_eq_some'] at h
    obtain ⟨c, hc, _⟩ := h
    have hp := List.find?_some hc
    simp only [decide_eq_true_eq] at hp
    simp only [Doc.hasKey, List.any_eq_true, decide_eq_true_eq]
    exact ⟨c, List.mem_of_find?_eq_some hc, hp⟩
  | str s => simp [Doc.lookup?] at h
  | bool b => simp [Doc.lookup?] at h
  | int n => simp [Doc.lookup?] at h
  | list xs => simp [Doc.lookup?] at h

/-- C3 (amended): one `validate_yaml` call collects all defects **per level**:
every missing required top-level field yields a distinct diagnostic, and —
when the top level validates cleanly — every missing node-level required
field yields a distinct diagnostic (missing fields in one node are reported
individually, never short-circuited).  But node validation is skipped
entirely whenever any top-level error exists (`and not errors`,
flow_validator.py line 52), so cross-level completeness fails — see the
counterexample. -/
theorem C3_validator_per_level_completeness (d : Doc) :
    missingTopCount d ≤ (validateYaml d).length
    ∧ (∀ ns, validateTopLevel d = [] → d.lookup? "nodes" = some (.list ns) →
        (ns.map nodeMissingCount).sum ≤ (validateYaml d).length) := by
  constructor
  · simp only [validateYaml]
    by_cases hc : d.hasKey "nodes" ∧ validateTopLevel d = []
    · obtain ⟨hn, ht⟩ := hc
      obtain ⟨hname, hnodes⟩ := validateTopLevel_empty ht
      simp [missingTopCount, hname, hnodes]
    · rw [if_neg hc]
      exact validateTopLevel_count d
  · intro ns htl hlk
    have hk : d.hasKey "nodes" = true := hasKey_of_lookup? hlk
    simp only [validateYaml]
    rw [if_pos ⟨hk, htl⟩, htl, hlk]
    simp only [List.nil_append]
    exact validateNodes_count ns

/-- C3 counterexample document: missing the required top-level field `name`,
and its single `append` node missing its required field `message`. -/
def c3doc : Doc := .dict [("nodes", .list [.dict [("type", .str "append")]])]

/-- C3 counterexample: `c3doc` misses two independent required fields (one at
the top level, one inside its node), yet a single `validate_yaml` call
returns exactly one diagnostic — the top-level error suppresses node
validation, refuting "a document missing N independent required fields
yields at least N distinct diagnostic entries". -/
theorem C3_counterexample :
    validateYaml c3doc = ["Missing required field: " ++ sq "name"]
    ∧ missingTopCount c3doc = 1
    ∧ nodeMissingCount (.dict [("type", .str "append")]) = 1
    ∧ (validateYaml c3doc).length = 1 := by
  refine ⟨rfl, rfl, rfl, rfl⟩

/-- C3 witness document: a clean top level whose single `decide` node misses
two of its three required fields (`on_false`, `instructions`). -/
def c3wnode : Doc := .dict [("type", .str "decide"),
  ("on_true", .dict [("type", .str "noop")])]

def c3wdoc : Doc := .dict [("name", .str "T"), ("nodes", .list [c3wnode])]

theorem C3_validator_per_level_completeness_witness :
    validateTopLevel c3wdoc = []
    ∧ ([c3wnode].map nodeMissingCount).sum = 2
    ∧ 2 ≤ (validateYaml c3wdoc).length := by
  refine ⟨rfl, rfl, ?_⟩
  have h := (C3_validator_per_level_completeness c3wdoc).2 [c3wnode] rfl rfl
  have h2 : ([c3wnode].map nodeMissingCount).sum = 2 := rfl
  omega

/-! ## C4 — is the closest valid type suggested on a typo? -/

/-- C4 failing input: the typo `type: "replay"` from the repository's own
`examples/test_validation.py` ("Testing typo suggestion...", which looks for
a "Did you mean" diagnostic). -/
def c4node : Doc := .dict [("type", .str "replay"),
  ("instructions", .list [.str "Test"])]

def c4doc : Doc := .dict [("name", .str "Test"), ("nodes", .list [c4node])]

/-- A control input whose type is nothing like any valid type. -/
def c4nodeFar : Doc := .dict [("type", .str "zzzqqq")]

def c4docFar : Doc := .dict [("name", .str "Test"),
  ("nodes", .list [c4nodeFar])]

/-- C4: the validator emits the **same** catalogue-style diagnostic for the
near-miss `"replay"` as for an arbitrary garbage type — the full sorted list
of all ten valid types, with no similarity heuristic selecting a closest
type and no "did you mean 'reply'" suggestion.  (`"reply"` appears in those
diagnostics only as one of the ten catalogue entries.) -/
theorem C4_no_closest_type_suggestion :
    validateYaml c4doc =
      ["Node 0: Invalid type " ++ sq "replay" ++ ". Must be one of: "
        ++ "append, choose, create, decide, invoke, noop, prepend, reply, route, sequence"]
    ∧ validateYaml c4docFar =
      ["Node 0: Invalid type " ++ sq "zzzqqq" ++ ". Must be one of: "
        ++ "append, choose, create, decide, invoke, noop, prepend, reply, route, sequence"] := by
  have e1 : validateSingleNode c4node "0" =
      ["Node 0: Invalid type " ++ sq "replay" ++ ". Must be one of: "
        ++ "append, choose, create, decide, invoke, noop, prepend, reply, route, sequence"] := by
    rw [validateSingleNode, nodeSpecificErrors]
    decide
  have e2 : validateSingleNode c4nodeFar "0" =
      ["Node 0: Invalid type " ++ sq "zzzqqq" ++ ". Must be one of: "
        ++ "append, choose, create, decide, invoke, noop, prepend, reply, route, sequence"] := by
    rw [validateSingleNode, nodeSpecificErrors]
    decide
  have aux0 : validateNodesAux 1 ([] : List Doc) = [] := by
    rw [validateNodesAux]
  constructor
  · have a2 : validateNodes [c4node] = validateNodesAux 0 [c4node] := by
      rw [validateNodes]
      rfl
    have a1 : validateNodesAux 0 [c4node] =
        validateSingleNode c4node "0" ++ validateNodesAux 1 [] := by
      conv_lhs => rw [validateNodesAux]
      rfl
    simp only [validateYaml]
    rw [if_pos (by exact ⟨rfl, rfl⟩)]
    show validateTopLevel c4doc ++ validateNodes [c4node] = _
    rw [show validateTopLevel c4doc = ([] : List String) from rfl,
      List.nil_append, a2, a1, e1, aux0]
    rfl
  · have a2 : validateNodes [c4nodeFar] = validateNodesAux 0 [c4nodeFar] := by
      rw [validateNodes]
      rfl
    have a1 : validateNodesAux 0 [c4nodeFar] =
        validateSingleNode c4nodeFar "0" ++ validateNodesAux 1 [] := by
      conv_lhs => rw [validateNodesAux]
      rfl
    simp only [validateYaml]
    rw [if_pos (by exact ⟨rfl, rfl⟩)]
    show validateTopLevel c4docFar ++ validateNodes [c4nodeFar] = _
    rw [show validateTopLevel c4docFar = ([] : List String) from rfl,
      List.nil_append, a2, a1, e2, aux0]
    rfl

/-! ## Messages, tools and the node classes of `src/lingo/flow.py`

`Message` (llm.py lines 17-41) is a role plus an opaque content value.  `Tool`
and the pydantic model classes live in modules that are not part of the
source tree (`lingo/tools.py`); they are modelled from the spec as opaque
descriptors: a tool is a named, describable capability that is either an
importable function reference (a delegate) or an importable class reference,
and a model class is its importable `(module, name)` plus its JSON schema. -/

inductive Role where
  | system
  | user
  | assistant
  | tool
deriving DecidableEq, Repr

def Role.toStr : Role → String
  | .system => "system"
  | .user => "user"
  | .assistant => "assistant"
  | .tool => "tool"

/-- Message content: plain text, a mapping, a sequence, or an instance of a
user-declared pydantic model (represented by the class's import path and the
instance's field data, i.e. its `model_dump`). -/
inductive MContent where
  | str (s : String)
  | dict (kvs : List (String × Doc))
  | list (xs : List Doc)
  | pyd (modelPath : String) (data : Doc)

structure Msg where
  role : Role
  content : MContent

/-- An instruction of `Reply`/`Create`/`Decide`/`Choose`: `str | Message`. -/
inductive Instr where
  | str (s : String)
  | msg (m : Msg)

/-- Modelled from the spec: a `Tool` (§3) is an external capability
descriptor; for serialization it is either a delegate around an importable
function (`DelegateTool`, with its name, description, target module/name and
async-ness) or an instance of an importable tool class (`src/lingo/tools.py`
is absent from the source tree). -/
inductive ToolT where
  | delegate (name descr targetModule targetName : String) (isAsync : Bool)
  | custom (name descr classPath : String)
deriving DecidableEq, Repr

def ToolT.name : ToolT → String
  | .delegate n _ _ _ _ => n
  | .custom n _ _ => n

/-- A pydantic model class, as the serializer sees it: its module, its name
and its `model_json_schema()`. -/
structure ModelClass where
  modName : String
  clsName : String
  schema : Doc

/-- The node classes of `src/lingo/flow.py` (the version in the source tree):
`AddSystemMessage`/`AddUserMessage`/`AddAssistantMessage` (lines 36-63),
`Reply` (66-77), `Invoke` (80-100), `NoOp` (103-107), `Create` (110-119),
`Sequence` (125-138), `Decide` (141-156), `Choose` (159-176), `Route`
(179-210).  A `Flow` (216-341) is a named, describable `Sequence`; `Route`
holds its flows as `(name, description, nodes)` triples. -/
inductive LNode where
  | addSystemMessage (content : String)
  | addUserMessage (content : String)
  | addAssistantMessage (content : String)
  | reply (instructions : List Instr)
  | invoke (tools : List ToolT)
  | noop
  | create (model : ModelClass) (instructions : List Instr)
  | seq (nodes : List LNode)
  | decide (onTrue onFalse : LNode) (instructions : List Instr)
  | choose (choices : List (String × LNode)) (instructions : List Instr)
  | route (flows : List (String × String × List LNode))

/-- The Context of an execution: the ordered conversation transcript
(`src/lingo/context.py` is absent from the source tree; per the spec §3 a
Context owns an ordered sequence of Messages, mutations appending to it). -/
structure Ctx where
  messages : List Msg

def Ctx.add (ctx : Ctx) (m : Msg) : Ctx :=
  ⟨ctx.messages ++ [m]⟩

/-- Modelled from the spec: the decision provider (§6) behind
`context.reply/decide/choose/equip/invoke/create` — an external collaborator
(the LLM client).  Each capability is an oracle of the instructions and the
conversation so far, returning a value or raising. -/
structure Provider where
  reply : List Instr → List Msg → Except PyErr Msg
  decide : List Instr → List Msg → Except PyErr Bool
  chooseOption : List String → List Instr → List Msg → Except PyErr String
  equip : List ToolT → List Msg → Except PyErr ToolT
  invoke : ToolT → List Msg → Except PyErr (List (String × Doc))
  create : ModelClass → List Instr → List Msg → Except PyErr MContent

/-- The routing prompt `Route.execute` builds (flow.py lines 191-203);
`f.description or "No description provided."` treats an empty description as
falsy. -/
def routeInstruction (flows : List (String × String × List LNode)) : String :=
  "Read the following option descriptions:\n"
  ++ String.intercalate "\n" (flows.map (fun f => f.1 ++ ": "
      ++ (if f.2.1 = "" then "No description provided." else f.2.1)))
  ++ "\n\nSelect the most appropriate option to handle the conversation."

def alookupL (xs : List (String × LNode)) (k : String) : Option LNode :=
  (xs.find? (fun e => e.1 = k)).map (fun e => e.2)

theorem sizeOf_alookupL {xs : List (String × LNode)} {k : String} {v : LNode}
    (h : alookupL xs k = some v) : sizeOf v < sizeOf xs := by
  simp only [alookupL, Option.map_eq_some'] at h
  obtain ⟨c, hc, hco⟩ := h
  have h1 : sizeOf c < sizeOf xs :=
    List.sizeOf_lt_of_mem (List.mem_of_find?_eq_some hc)
  obtain ⟨ck, cv⟩ := c
  simp only at hco
  subst hco
  simp only [Prod.mk.sizeOf_spec] at h1
  omega

mutual
/-- The `execute` methods of the node classes, as a deterministic interpreter:
each node mutates the context (appending messages) and either returns
normally or propagates the provider's exception unchanged.  There is **no**
snapshot or rollback anywhere: `Decide.execute` (flow.py lines 153-156) and
`Choose.execute` (lines 170-176) run the selected child directly on the
shared context, and `Sequence.execute` (135-138) stops at the first raising
child, keeping whatever that child already appended. -/
def runLNode (p : Provider) (n : LNode) (ctx : Ctx) : Ctx × Option PyErr :=
  match n with
  | .addSystemMessage c => (ctx.add ⟨.system, .str c⟩, Option.none)
  | .addUserMessage c => (ctx.add ⟨.user, .str c⟩, Option.none)
  | .addAssistantMessage c => (ctx.add ⟨.assistant, .str c⟩, Option.none)
  | .reply ins =>
    match p.reply ins ctx.messages with
    | .ok m => (ctx.add m, Option.none)
    | .error e => (ctx, some e)
  | .invoke tools =>
    match p.equip tools ctx.messages with
    | .error e => (ctx, some e)
    | .ok tool =>
      match p.invoke tool ctx.messages with
      | .error e => (ctx, some e)
      | .ok result => (ctx.add ⟨.tool, .dict result⟩, Option.none)
  | .noop => (ctx, Option.none)
  | .create mc ins =>
    match p.create mc ins ctx.messages with
    | .ok content => (ctx.add ⟨.system, content⟩, Option.none)
    | .error e => (ctx, some e)
  | .seq ns => runLNodes p ns ctx
  | .decide t f ins =>
    match p.decide ins ctx.messages with
    | .ok b => if b then runLNode p t ctx else runLNode p f ctx
    | .error e => (ctx, some e)
  | .choose choices ins =>
    match p.chooseOption (choices.map (fun c => c.1)) ins ctx.messages with
    | .error e => (ctx, some e)
    | .ok key =>
      match hsel : alookupL choices key with
      | some nodeToRun => runLNode p nodeToRun ctx
      | Option.none =>
        -- `self.choices.get(selected_key)` miss: silent no-op (lines 174-176)
        (ctx, Option.none)
  | .route flows =>
    match p.chooseOption (flows.map (fun f => f.1))
        [.str (routeInstruction flows)] ctx.messages with
    | .error e => (ctx, some e)
    | .ok key =>
      -- `context.choose` returns one of the supplied options (spec §6); the
      -- selected Flow is resolved here by its name, `str(option)`
      match hsel : flows.find? (fun f => f.1 = key) with
      | some fl => runLNodes p fl.2.2 ctx
      | Option.none => (ctx, Option.none)
termination_by (sizeOf n, 0)
decreasing_by
  all_goals simp_wf
  all_goals apply Prod.Lex.left
  · omega
  · omega
  · omega
  · have h1 := sizeOf_alookupL hsel
    omega
  · have h1 : sizeOf fl < sizeOf flows :=
      List.sizeOf_lt_of_mem (List.mem_of_find?_eq_some hsel)
    obtain ⟨a, b, c⟩ := fl
    simp only [Prod.mk.sizeOf_spec] at h1 ⊢
    omega

/-- `Sequence.execute` (flow.py lines 135-138): run each child in order on
the shared context; a raising child aborts the loop, keeping its effects. -/
def runLNodes (p : Provider) (ns : List LNode) (ctx : Ctx) :
    Ctx × Option PyErr :=
  match ns with
  | [] => (ctx, Option.none)
  | n :: rest =>
    match runLNode p n ctx with
    | (ctx', some e) => (ctx', some e)
    | (ctx', Option.none) => runLNodes p rest ctx'
termination_by (sizeOf ns, 1)
decreasing_by
  all_goals simp_wf
  · apply Prod.Lex.left
    omega
  · apply Prod.Lex.left
    omega

end

/-! ## Branch failure is visible to the parent context

`tests/test_flow_atomicity.py` runs a `Decide` whose selected branch appends
a message and then raises, and asserts `context.messages == initial_messages`
afterwards; same for `Choose`.  The interpreter below replays exactly those
scenarios: the provider forces the failing branch, the branch appends one
message and then its `reply` raises. -/

def c1provider : Provider where
  reply := fun _ _ => .error (.runtimeError "Branch failed after partial execution")
  decide := fun _ _ => .ok true
  chooseOption := fun _ _ _ => .ok "risky_option"
  equip := fun _ _ => .error (.valueError "unused")
  invoke := fun _ _ => .error (.valueError "unused")
  create := fun _ _ _ => .error (.valueError "unused")

def c1branch : LNode :=
  .seq [.addSystemMessage "This message must NOT appear", .reply []]

def c1decide : LNode := .decide c1branch .noop []

def c1ctx : Ctx := ⟨[⟨.user, .str "Start"⟩]⟩

def c1choose : LNode :=
  .choose [("safe_option", .addSystemMessage "Safe path"),
           ("risky_option",
            .seq [.addSystemMessage "Dangerous message", .reply []])] []

def c1ctx2 : Ctx := ⟨[⟨.user, .str "Begin"⟩]⟩

/-- **C1.** The claim says that when the branch selected inside a
`Decide`/`Choose` raises, the parent context's message sequence is restored
to what it held before the branch was entered, and the exception is
re-raised.  The second half is true, the first is not: `Decide.execute`
(flow.py lines 153-156) and `Choose.execute` (lines 170-176) take no
snapshot and perform no rollback, so the messages the failing branch
appended before raising stay in the context.  On the scenarios of
`tests/test_flow_atomicity.py` (which assert the claimed restoration, so
those tests fail against this code): a one-message context enters a branch
that appends one message and then raises; afterwards the context holds two
messages — the polluted transcript — while the claim requires it to hold
one. -/
theorem C1_branch_failure_pollutes_context :
    runLNode c1provider c1decide c1ctx
      = (⟨[⟨.user, .str "Start"⟩,
           ⟨.system, .str "This message must NOT appear"⟩]⟩,
         some (.runtimeError "Branch failed after partial execution"))
    ∧ (runLNode c1provider c1decide c1ctx).1.messages.length = 2
    ∧ c1ctx.messages.length = 1
    ∧ runLNode c1provider c1choose c1ctx2
      = (⟨[⟨.user, .str "Begin"⟩,
           ⟨.system, .str "Dangerous message"⟩]⟩,
         some (.runtimeError "Branch failed after partial execution"))
    ∧ (runLNode c1provider c1choose c1ctx2).1.messages.length = 2
    ∧ c1ctx2.messages.length = 1 := by
  have e1 : runLNode c1provider c1decide c1ctx
      = (⟨[⟨.user, .str "Start"⟩,
           ⟨.system, .str "This message must NOT appear"⟩]⟩,
         some (.runtimeError "Branch failed after partial execution")) := by
    show runLNode c1provider (.decide c1branch .noop []) c1ctx = _
    rw [runLNode]
    show runLNode c1provider c1branch c1ctx = _
    show runLNode c1provider
      (.seq [.addSystemMessage "This message must NOT appear", .reply []])
      c1ctx = _
    rw [runLNode]
    show runLNodes c1provider
      [.addSystemMessage "This message must NOT appear", .reply []] c1ctx = _
    rw [runLNodes]
    have ea : runLNode c1provider
        (.addSystemMessage "This message must NOT appear") c1ctx
        = (c1ctx.add ⟨.system, .str "This message must NOT appear"⟩,
           Option.none) := by
      rw [runLNode]
    rw [ea]
    show runLNodes c1provider [.reply []]
      (c1ctx.add ⟨.system, .str "This message must NOT appear"⟩) = _
    rw [runLNodes]
    have er : runLNode c1provider (.reply [])
        (c1ctx.add ⟨.system, .str "This message must NOT appear"⟩)
        = (c1ctx.add ⟨.system, .str "This message must NOT appear"⟩,
           some (.runtimeError "Branch failed after partial execution")) := by
      rw [runLNode.eq_def]
      rfl
    rw [er]
    rfl
  have e2 : runLNode c1provider c1choose c1ctx2
      = (⟨[⟨.user, .str "Begin"⟩,
           ⟨.system, .str "Dangerous message"⟩]⟩,
         some (.runtimeError "Branch failed after partial execution")) := by
    show runLNode c1provider
      (.choose [("safe_option", .addSystemMessage "Safe path"),
                ("risky_option",
                 .seq [.addSystemMessage "Dangerous message", .reply []])] [])
      c1ctx2 = _
    rw [runLNode]
    show runLNode c1provider
      (.seq [.addSystemMessage "Dangerous message", .reply []]) c1ctx2 = _
    rw [runLNode]
    show runLNodes c1provider
      [.addSystemMessage "Dangerous message", .reply []] c1ctx2 = _
    rw [runLNodes]
    have ea : runLNode c1provider
        (.addSystemMessage "Dangerous message") c1ctx2
        = (c1ctx2.add ⟨.system, .str "Dangerous message"⟩, Option.none) := by
      rw [runLNode]
    rw [ea]
    show runLNodes c1provider [.reply []]
      (c1ctx2.add ⟨.system, .str "Dangerous message"⟩) = _
    rw [runLNodes]
    have er : runLNode c1provider (.reply [])
        (c1ctx2.add ⟨.system, .str "Dangerous message"⟩)
        = (c1ctx2.add ⟨.system, .str "Dangerous message"⟩,
           some (.runtimeError "Branch failed after partial execution")) := by
      rw [runLNode.eq_def]
      rfl
    rw [er]
    rfl
  refine ⟨e1, ?_, rfl, e2, ?_, rfl⟩
  · rw [e1]
    rfl
  · rw [e2]
    rfl

/-! ## Construction-time arity checks of `Route` and `Invoke` -/

/-- Embeds `Route.__init__` (flow.py lines 184-188): fewer than two flows is
rejected before the node exists. -/
def routeInit (flows : List (String × String × List LNode)) :
    Except PyErr LNode :=
  if flows.length < 2 then
    .error (.valueError "Route needs at least two flows.")
  else .ok (.route flows)

/-- Embeds `Invoke.__init__` (flow.py lines 87-90): an empty tool list is
rejected before the node exists. -/
def invokeInit (tools : List ToolT) : Except PyErr LNode :=
  if tools.isEmpty then
    .error (.valueError
      "Invoke node must be initialized with at least one Tool.")
  else .ok (.invoke tools)

/-- **C7 counterexample.** A one-flow `Route` and a zero-tool `Invoke` are
rejected at construction, but with a `ValueError`, not the
`ConfigurationError` the claim names: `Route.__init__` (flow.py line 186)
and `Invoke.__init__` (line 89) both raise `ValueError`, which is not a
`ConfigurationError` (no such class exists in the source tree). -/
theorem C7_counterexample :
    routeInit [("only", "", [])]
      = .error (.valueError "Route needs at least two flows.")
    ∧ (PyErr.valueError "Route needs at least two flows.").isConfigurationError
      = false
    ∧ invokeInit []
      = .error (.valueError
          "Invoke node must be initialized with at least one Tool.")
    ∧ (PyErr.valueError
        "Invoke node must be initialized with at least one Tool.").isConfigurationError
      = false :=
  ⟨rfl, rfl, rfl, rfl⟩

/-- **C7 (amended).** Constructing a `Route` with fewer than 2 flows, or an
`Invoke` with zero tools, fails immediately at construction time — before
any execution — with a `ValueError` carrying the source's message
(`Route.__init__`, flow.py lines 184-188; `Invoke.__init__`, lines 87-90).
The spec's `ConfigurationError` does not occur: the raised error is a plain
`ValueError`. -/
theorem C7_construction_fails_with_valueError
    (flows : List (String × String × List LNode)) (tools : List ToolT)
    (h1 : flows.length < 2) (h2 : tools = []) :
    routeInit flows = .error (.valueError "Route needs at least two flows.")
    ∧ invokeInit tools
      = .error (.valueError
          "Invoke node must be initialized with at least one Tool.")
    ∧ ∀ e, routeInit flows = .error e ∨ invokeInit tools = .error e →
        e.isConfigurationError = false := by
  subst h2
  refine ⟨by simp [routeInit, h1], rfl, ?_⟩
  intro e he
  rcases he with he | he
  · simp [routeInit, h1] at he
    subst he
    rfl
  · simp [invokeInit] at he
    subst he
    rfl

/-! ## The serializer (`src/lingo/serializer.py`)

`serializer.py` imports `Append, Prepend, Reply, Invoke, NoOp, Create,
Sequence, Decide, Choose, Route, Flow, FunctionalNode` from `.flow` — a newer
revision of the flow module than the one in the source tree (which has
`AddSystemMessage`-style leaves and no `Append`/`FunctionalNode`).  The node
algebra below is therefore modelled from the spec, keeping exactly the field
shapes `_serialize_node` reads: `Append`/`Prepend` hold a message, `Reply`
its instructions, `Invoke` its tools, `Create` a model class and
instructions, `Sequence` child nodes, `Decide` two children and
instructions, `Choose` a keyed mapping of children and instructions, `Route`
a list of flows (each a named, describable node list), and `FunctionalNode`
an opaque Python callable (not serializable). -/

inductive SNode where
  | append (msg : Msg)
  | prepend (msg : Msg)
  | reply (instructions : List Instr)
  | invoke (tools : List ToolT)
  | noop
  | create (model : ModelClass) (instructions : List Instr)
  | seq (nodes : List SNode)
  | decide (onTrue onFalse : SNode) (instructions : List Instr)
  | choose (choices : List (String × SNode)) (instructions : List Instr)
  | route (flows : List (String × String × List SNode))
  | functional (fname : String)

/-- A `Flow` as the serializer reads it: `flow.name`, `flow.description`,
`flow.nodes`.  Inside a `Route` the same data travels as a triple. -/
structure SFlow where
  name : String
  description : String
  nodes : List SNode

/-- Modelled from the spec: the ambient import-and-registry environment the
serializer talks to — the serializer's `tool_registry` dict, and the
`importlib`/pydantic machinery behind `_import_class`,
`DelegateTool(target=...)` and `model_class(**data)`:
`importFunc m n` is the async-ness of the function importable at `m.n`
(`none` when the import fails), `importClassOk cp` whether the tool class at
`cp` imports and instantiates with `(name, description)` keywords,
`importModelClass m n` the `model_json_schema()` of the pydantic class at
`m.n`, and `importPyd p data` the `(class path, model_dump())` of
`import(p)(**data)`. -/
structure SerEnv where
  registry : List (String × ToolT)
  importFunc : String → String → Option Bool
  importClassOk : String → Bool
  importModelClass : String → String → Option Doc
  importPyd : String → Doc → Option (String × Doc)

def lookupReg (reg : List (String × ToolT)) (k : String) : Option ToolT :=
  (reg.find? (fun e => e.1 = k)).map (fun e => e.2)

/-- Embeds the content branch of `FlowSerializer._serialize_message`
(serializer.py lines 201-224). -/
def serializeContent : MContent → Doc
  | .pyd p d => .dict [("type", .str "pydantic_model"), ("model", .str p),
      ("data", d)]
  | .dict kvs => .dict [("type", .str "dict"), ("value", .dict kvs)]
  | .list xs => .dict [("type", .str "list"), ("value", .list xs)]
  | .str s => .dict [("type", .str "string"), ("value", .str s)]

/-- Embeds `FlowSerializer._serialize_message` (lines 191-229). -/
def serializeMessage (m : Msg) : Doc :=
  .dict [("role", .str m.role.toStr), ("content", serializeContent m.content)]

/-- Embeds `FlowSerializer._serialize_instruction` (lines 231-250). -/
def serializeInstruction : Instr → Doc
  | .msg m => .dict [("type", .str "message"), ("value", serializeMessage m)]
  | .str s => .dict [("type", .str "string"), ("value", .str s)]

/-- Embeds `FlowSerializer._serialize_tool` (lines 252-289): a tool that
`is` one of the registry's values serializes as a registry reference by
name; otherwise a `DelegateTool` records its target function and a custom
tool its class path. -/
def serializeTool (env : SerEnv) (t : ToolT) : Doc :=
  if (env.registry.find? (fun e => e.2 = t)).isSome then
    .dict [("type", .str "registered"), ("name", .str t.name)]
  else
    match t with
    | .delegate nm ds tm tn ia =>
      .dict [("type", .str "delegate_tool"), ("name", .str nm),
        ("description", .str ds), ("target_module", .str tm),
        ("target_name", .str tn), ("is_async", .bool ia)]
    | .custom nm ds cp =>
      .dict [("type", .str "custom_tool"), ("name", .str nm),
        ("description", .str ds), ("class", .str cp)]

/-- Embeds `FlowSerializer._serialize_model` (lines 291-305). -/
def serializeModel (mc : ModelClass) : Doc :=
  .dict [("module", .str mc.modName), ("name", .str mc.clsName),
    ("schema", mc.schema)]

mutual
/-- Embeds `FlowSerializer._serialize_node` (lines 117-189).  A
`FunctionalNode` raises `ValueError`; every other kind builds its document
bottom-up, so a raising descendant propagates. -/
def serializeNode (env : SerEnv) (n : SNode) : Except PyErr Doc :=
  match n with
  | .append m =>
    .ok (.dict [("type", .str "append"), ("message", serializeMessage m)])
  | .prepend m =>
    .ok (.dict [("type", .str "prepend"), ("message", serializeMessage m)])
  | .reply ins =>
    .ok (.dict [("type", .str "reply"),
      ("instructions", .list (ins.map serializeInstruction))])
  | .invoke ts =>
    .ok (.dict [("type", .str "invoke"),
      ("tools", .list (ts.map (serializeTool env)))])
  | .noop => .ok (.dict [("type", .str "noop")])
  | .create mc ins =>
    .ok (.dict [("type", .str "create"), ("model", serializeModel mc),
      ("instructions", .list (ins.map serializeInstruction))])
  | .seq ns =>
    match serializeNodes env ns with
    | .error e => .error e
    | .ok ds => .ok (.dict [("type", .str "sequence"), ("nodes", .list ds)])
  | .decide t f ins =>
    match serializeNode env t with
    | .error e => .error e
    | .ok dt =>
      match serializeNode env f with
      | .error e => .error e
      | .ok df =>
        .ok (.dict [("type", .str "decide"), ("on_true", dt),
          ("on_false", df),
          ("instructions", .list (ins.map serializeInstruction))])
  | .choose cs ins =>
    match serializeChoices env cs with
    | .error e => .error e
    | .ok kvs =>
      .ok (.dict [("type", .str "choose"), ("choices", .dict kvs),
        ("instructions", .list (ins.map serializeInstruction))])
  | .route fls =>
    match serializeFlows env fls with
    | .error e => .error e
    | .ok ds => .ok (.dict [("type", .str "route"), ("flows", .list ds)])
  | .functional _ =>
    .error (.valueError
      "FunctionalNode cannot be serialized. Use YAML for declarative flows only.")
termination_by sizeOf n

def serializeNodes (env : SerEnv) (ns : List SNode) :
    Except PyErr (List Doc) :=
  match ns with
  | [] => .ok []
  | n :: rest =>
    match serializeNode env n with
    | .error e => .error e
    | .ok d =>
      match serializeNodes env rest with
      | .error e => .error e
      | .ok ds => .ok (d :: ds)
termination_by sizeOf ns

def serializeChoices (env : SerEnv) (cs : List (String × SNode)) :
    Except PyErr (List (String × Doc)) :=
  match cs with
  | [] => .ok []
  | (k, n) :: rest =>
    match serializeNode env n with
    | .error e => .error e
    | .ok d =>
      match serializeChoices env rest with
      | .error e => .error e
      | .ok kvs => .ok ((k, d) :: kvs)
termination_by sizeOf cs

/-- Embeds `FlowSerializer.serialize_flow` (lines 100-115) on the
`(name, description, nodes)` triple of a Flow. -/
def serializeFlowT (env : SerEnv) (fl : String × String × List SNode) :
    Except PyErr Doc :=
  match fl with
  | (nm, dsc, ns) =>
    match serializeNodes env ns with
    | .error e => .error e
    | .ok ds =>
      .ok (.dict [("name", .str nm), ("description", .str dsc),
        ("version", .str "1.0"), ("nodes", .list ds)])
termination_by sizeOf fl

def serializeFlows (env : SerEnv)
    (fls : List (String × String × List SNode)) : Except PyErr (List Doc) :=
  match fls with
  | [] => .ok []
  | fl :: rest =>
    match serializeFlowT env fl with
    | .error e => .error e
    | .ok d =>
      match serializeFlows env rest with
      | .error e => .error e
      | .ok ds => .ok (d :: ds)
termination_by sizeOf fls
end

/-- Embeds `FlowSerializer.serialize_flow` on a Flow object. -/
def serializeFlow (env : SerEnv) (f : SFlow) : Except PyErr Doc :=
  serializeFlowT env (f.name, f.description, f.nodes)

def roleOfStr : String → Option Role
  | "system" => some .system
  | "user" => some .user
  | "assistant" => some .assistant
  | "tool" => some .tool
  | _ => none

/-- Embeds `FlowSerializer._deserialize_message` (lines 433-460): direct
indexing of `role`/`content` (KeyError when absent); the content type
defaults to `"string"`; for `pydantic_model` content the class at `model` is
imported and instantiated on `data` (the environment reports the resulting
instance's class path and dump).  Non-string roles, non-dict content data
and content values outside the message model (string/dict/list/pydantic) sit
outside the embedding's `Msg` type and are cut off as errors; the validator
rejects them before this point on every input the claims quantify over. -/
def dserMessage (env : SerEnv) (d : Doc) : Except PyErr Msg :=
  match d.lookup? "role" with
  | Option.none => .error (.keyError "role")
  | some roleD =>
    match d.lookup? "content" with
    | Option.none => .error (.keyError "content")
    | some contentD =>
      match roleD with
      | .str r =>
        match roleOfStr r with
        | Option.none => .error (.valueError ("Invalid role: " ++ r))
        | some ro =>
          match contentD with
          | .dict ckvs =>
            match (lookupD ckvs "type").getD (.str "string") with
            | .str "pydantic_model" =>
              match lookupD ckvs "model" with
              | Option.none => .error (.keyError "model")
              | some (.str p) =>
                match lookupD ckvs "data" with
                | Option.none => .error (.keyError "data")
                | some dat =>
                  match env.importPyd p dat with
                  | Option.none =>
                    .error (.importError ("Cannot import " ++ p))
                  | some (p2, d2) => .ok ⟨ro, .pyd p2 d2⟩
              | some _ => .error (.typeError "model path must be a string")
            | _ =>
              -- "dict", "list" and the default all return content_data["value"]
              match lookupD ckvs "value" with
              | Option.none => .error (.keyError "value")
              | some (.dict kvs) => .ok ⟨ro, .dict kvs⟩
              | some (.list xs) => .ok ⟨ro, .list xs⟩
              | some (.str s) => .ok ⟨ro, .str s⟩
              | some _ =>
                .error (.typeError "content value outside the message model")
          | _ => .error (.typeError "content must be a mapping")
      | _ => .error (.typeError "role must be a string")

/-- Embeds `FlowSerializer._deserialize_instruction` (lines 462-475). -/
def dserInstruction (env : SerEnv) (d : Doc) : Except PyErr Instr :=
  match d.lookup? "type" with
  | Option.none => .error (.keyError "type")
  | some t =>
    match t with
    | .str "message" =>
      match d.lookup? "value" with
      | Option.none => .error (.keyError "value")
      | some v =>
        match dserMessage env v with
        | .error e => .error e
        | .ok m => .ok (.msg m)
    | _ =>
      match d.lookup? "value" with
      | Option.none => .error (.keyError "value")
      | some (.str s) => .ok (.str s)
      | some _ =>
        -- instruction values other than strings fall outside `str | Message`
        .error (.typeError "instruction value must be a string")

def dserInstrList (env : SerEnv) : List Doc → Except PyErr (List Instr)
  | [] => .ok []
  | d :: rest =>
    match dserInstruction env d with
    | .error e => .error e
    | .ok i =>
      match dserInstrList env rest with
      | .error e => .error e
      | .ok is2 => .ok (i :: is2)

/-- Embeds `FlowSerializer._deserialize_tool` (lines 477-538): the type tag
defaults to `custom_tool`; a `registered` reference resolves through the
registry or raises `ValueError`; a `delegate_tool` imports its target
function (ImportError on failure) and rebuilds a `DelegateTool`; a custom
tool imports its class and instantiates it with `(name, description)`.  The
fallback no-argument instantiation after a `TypeError` is folded into the
environment's `importClassOk`. -/
def dserTool (env : SerEnv) (d : Doc) : Except PyErr ToolT :=
  match (match d.lookup? "type" with
         | some (.str t) => t
         | _ => "custom_tool") with
  | "registered" =>
    match d.lookup? "name" with
    | Option.none => .error (.keyError "name")
    | some (.str nm) =>
      match lookupReg env.registry nm with
      | some t => .ok t
      | Option.none =>
        .error (.valueError ("Tool " ++ sq nm ++ " not found in registry"))
    | some other =>
      -- a non-string name is never a registry key
      .error (.valueError ("Tool " ++ sq other.pyStr
        ++ " not found in registry"))
  | "delegate_tool" =>
    match d.lookup? "target_module" with
    | Option.none => .error (.keyError "target_module")
    | some (.str tm) =>
      match d.lookup? "target_name" with
      | Option.none => .error (.keyError "target_name")
      | some (.str tn) =>
        match env.importFunc tm tn with
        | Option.none =>
          .error (.importError
            ("Cannot import function " ++ tn ++ " from " ++ tm))
        | some ia =>
          match d.lookup? "name" with
          | Option.none => .error (.keyError "name")
          | some (.str nm) =>
            match d.lookup? "description" with
            | Option.none => .error (.keyError "description")
            | some (.str ds) => .ok (.delegate nm ds tm tn ia)
            | some _ => .error (.typeError "description must be a string")
          | some _ => .error (.typeError "name must be a string")
      | some _ => .error (.typeError "target_name must be a string")
    | some _ => .error (.typeError "target_module must be a string")
  | _ =>
    match d.lookup? "class" with
    | Option.none => .error (.keyError "class")
    | some (.str cp) =>
      if env.importClassOk cp then
        match d.lookup? "name" with
        | Option.none => .error (.keyError "name")
        | some (.str nm) =>
          match d.lookup? "description" with
          | Option.none => .error (.keyError "description")
          | some (.str ds) => .ok (.custom nm ds cp)
          | some _ => .error (.typeError "description must be a string")
        | some _ => .error (.typeError "name must be a string")
      else .error (.importError ("Cannot import " ++ cp))
    | some _ => .error (.typeError "class path must be a string")

def dserToolList (env : SerEnv) : List Doc → Except PyErr (List ToolT)
  | [] => .ok []
  | d :: rest =>
    match dserTool env d with
    | .error e => .error e
    | .ok t =>
      match dserToolList env rest with
      | .error e => .error e
      | .ok ts => .ok (t :: ts)

/-- Embeds `FlowSerializer._deserialize_model` (lines 540-553): the class at
`module.name` is imported and returned; the environment reports its
`model_json_schema()`. -/
def dserModel (env : SerEnv) (d : Doc) : Except PyErr ModelClass :=
  match d.lookup? "module" with
  | Option.none => .error (.keyError "module")
  | some (.str m) =>
    match d.lookup? "name" with
    | Option.none => .error (.keyError "name")
    | some (.str n) =>
      match env.importModelClass m n with
      | some sch => .ok ⟨m, n, sch⟩
      | Option.none => .error (.importError ("Cannot import " ++ m ++ "." ++ n))
    | some _ => .error (.typeError "model name must be a string")
  | some _ => .error (.typeError "model module must be a string")

/-- `node_dict.get("instructions", [])` / `.get("tools", [])`: the list
value, or `[]` when absent.  (A non-list value would be duck-type-iterated
by Python; the validator rejects it before deserialization reaches it, and
it is cut off to `[]` here.) -/
def getListD (d : Doc) (k : String) : List Doc :=
  match d.lookup? k with
  | some (.list xs) => xs
  | _ => []

mutual
/-- Embeds `FlowSerializer._deserialize_node` (lines 363-431), dispatching
on `node_dict.get("type")`; an unrecognised (or missing) type raises
`ValueError`.  Nested nodes, choices and route flows recurse; route flows go
back through `deserialize_flow`, re-validating each sub-flow document. -/
def dserNode (env : SerEnv) (d : Doc) : Except PyErr SNode :=
  match d.lookup? "type" with
  | some (.str "append") =>
    match d.lookup? "message" with
    | Option.none => .error (.keyError "message")
    | some md =>
      match dserMessage env md with
      | .error e => .error e
      | .ok m => .ok (.append m)
  | some (.str "prepend") =>
    match d.lookup? "message" with
    | Option.none => .error (.keyError "message")
    | some md =>
      match dserMessage env md with
      | .error e => .error e
      | .ok m => .ok (.prepend m)
  | some (.str "reply") =>
    match dserInstrList env (getListD d "instructions") with
    | .error e => .error e
    | .ok ins => .ok (.reply ins)
  | some (.str "invoke") =>
    match dserToolList env (getListD d "tools") with
    | .error e => .error e
    | .ok ts => .ok (.invoke ts)
  | some (.str "noop") => .ok .noop
  | some (.str "create") =>
    match d.lookup? "model" with
    | Option.none => .error (.keyError "model")
    | some md =>
      match dserModel env md with
      | .error e => .error e
      | .ok mc =>
        match dserInstrList env (getListD d "instructions") with
        | .error e => .error e
        | .ok ins => .ok (.create mc ins)
  | some (.str "sequence") =>
    match hns : d.lookup? "nodes" with
    | some (.list xs) =>
      match dserNodes env xs with
      | .error e => .error e
      | .ok ns => .ok (.seq ns)
    | _ => .ok (.seq [])
  | some (.str "decide") =>
    match hot : d.lookup? "on_true" with
    | Option.none => .error (.keyError "on_true")
    | some ot =>
      match dserNode env ot with
      | .error e => .error e
      | .ok t =>
        match hof : d.lookup? "on_false" with
        | Option.none => .error (.keyError "on_false")
        | some onf =>
          match dserNode env onf with
          | .error e => .error e
          | .ok f =>
            match dserInstrList env (getListD d "instructions") with
            | .error e => .error e
            | .ok ins => .ok (.decide t f ins)
  | some (.str "choose") =>
    match hch : d.lookup? "choices" with
    | some (.dict kvs) =>
      match dserChoices env kvs with
      | .error e => .error e
      | .ok cs =>
        match dserInstrList env (getListD d "instructions") with
        | .error e => .error e
        | .ok ins => .ok (.choose cs ins)
    | _ =>
      -- `.get("choices", {})` on an absent key: no choices
      match dserInstrList env (getListD d "instructions") with
      | .error e => .error e
      | .ok ins => .ok (.choose [] ins)
  | some (.str "route") =>
    match hfl : d.lookup? "flows" with
    | some (.list fds) =>
      match dserFlows env fds with
      | .error e => .error e
      | .ok fls => .ok (.route fls)
    | _ => .ok (.route [])
  | some (.str other) =>
    if other = "append" ∨ other = "prepend" ∨ other = "reply"
        ∨ other = "invoke" ∨ other = "noop" ∨ other = "create"
        ∨ other = "sequence" ∨ other = "decide" ∨ other = "choose"
        ∨ other = "route" then
      .error (.runtimeError "unreachable")
    else .error (.valueError ("Unknown node type: " ++ other))
  | some other => .error (.valueError ("Unknown node type: " ++ other.pyStr))
  | Option.none => .error (.valueError "Unknown node type: None")
termination_by (sizeOf d, 0)
decreasing_by
  all_goals simp_wf
  all_goals apply Prod.Lex.left
  · have h1 := sizeOf_lookup? hns
    simp only [Doc.list.sizeOf_spec] at h1
    omega
  · exact sizeOf_lookup? hot
  · exact sizeOf_lookup? hof
  · have h1 := sizeOf_lookup? hch
    simp only [Doc.dict.sizeOf_spec] at h1
    omega
  · have h1 := sizeOf_lookup? hfl
    simp only [Doc.list.sizeOf_spec] at h1
    omega

/-- The node-rebuilding loop of `deserialize_flow` (lines 356-359) and of
the `sequence` branch (lines 400-405). -/
def dserNodes (env : SerEnv) (ds : List Doc) : Except PyErr (List SNode) :=
  match ds with
  | [] => .ok []
  | d :: rest =>
    match dserNode env d with
    | .error e => .error e
    | .ok n =>
      match dserNodes env rest with
      | .error e => .error e
      | .ok ns => .ok (n :: ns)
termination_by (sizeOf ds, 0)
decreasing_by
  all_goals simp_wf
  all_goals apply Prod.Lex.left
  all_goals omega

/-- The `choose` branch's dict comprehension (lines 414-418). -/
def dserChoices (env : SerEnv) (kvs : List (String × Doc)) :
    Except PyErr (List (String × SNode)) :=
  match kvs with
  | [] => .ok []
  | (k, vd) :: rest =>
    match dserNode env vd with
    | .error e => .error e
    | .ok n =>
      match dserChoices env rest with
      | .error e => .error e
      | .ok cs => .ok ((k, n) :: cs)
termination_by (sizeOf kvs, 0)
decreasing_by
  all_goals simp_wf
  all_goals apply Prod.Lex.left
  all_goals omega

/-- Embeds `FlowSerializer.deserialize_flow` (lines 332-361): validate the
whole document first (raising `ValidationError("Invalid flow structure",
errors)` on any diagnostic), then rebuild
`Flow(name=get("name","UnnamedFlow"), description=get("description",""))`
and its nodes. -/
def dserFlowD (env : SerEnv) (d : Doc) :
    Except PyErr (String × String × List SNode) :=
  match hval : validateYaml d with
  | e :: es => .error (.validationError "Invalid flow structure" (e :: es))
  | [] =>
    let nm := match d.lookup? "name" with
      | some (.str s) => s
      | _ => "UnnamedFlow"
    let dsc := match d.lookup? "description" with
      | some (.str s) => s
      | _ => ""
    match hns : d.lookup? "nodes" with
    | some (.list xs) =>
      match dserNodes env xs with
      | .error e => .error e
      | .ok ns => .ok (nm, dsc, ns)
    | _ => .ok (nm, dsc, [])
termination_by (sizeOf d, 1)
decreasing_by
  simp_wf
  apply Prod.Lex.left
  have h1 := sizeOf_lookup? hns
  simp only [Doc.list.sizeOf_spec] at h1
  omega

/-- The `route` branch's flow loop (lines 424-429). -/
def dserFlows (env : SerEnv) (ds : List Doc) :
    Except PyErr (List (String × String × List SNode)) :=
  match ds with
  | [] => .ok []
  | d :: rest =>
    match dserFlowD env d with
    | .error e => .error e
    | .ok fl =>
      match dserFlows env rest with
      | .error e => .error e
      | .ok fls => .ok (fl :: fls)
termination_by (sizeOf ds, 2)
decreasing_by
  all_goals simp_wf
  · apply Prod.Lex.left
    omega
  · apply Prod.Lex.left
    omega
end

/-- `deserialize_flow` returning the Flow object. -/
def deserializeFlow (env : SerEnv) (d : Doc) : Except PyErr SFlow :=
  match dserFlowD env d with
  | .error e => .error e
  | .ok fl => .ok ⟨fl.1, fl.2.1, fl.2.2⟩

/-! Well-formedness of a tree for the round-trip: no `FunctionalNode`
anywhere, every `instructions`/`nodes` list and `choices` mapping non-empty,
every `Route` with at least two flows (otherwise the validator inside
`deserialize_flow` rejects the serialized document), and every referenced
tool, model class and pydantic content resolvable through the environment to
the same object it was serialized from. -/

def wfContent (env : SerEnv) : MContent → Prop
  | .pyd p dat => env.importPyd p dat = some (p, dat)
  | _ => True

def wfMsg (env : SerEnv) (m : Msg) : Prop := wfContent env m.content

def wfInstr (env : SerEnv) : Instr → Prop
  | .str _ => True
  | .msg m => wfMsg env m

def wfInstrs (env : SerEnv) : List Instr → Prop
  | [] => True
  | i :: rest => wfInstr env i ∧ wfInstrs env rest

def wfTool (env : SerEnv) (t : ToolT) : Prop :=
  match env.registry.find? (fun e => e.2 = t) with
  | some _ => lookupReg env.registry t.name = some t
  | Option.none =>
    match t with
    | .delegate _ _ tm tn ia => env.importFunc tm tn = some ia
    | .custom _ _ cp => env.importClassOk cp = true

def wfTools (env : SerEnv) : List ToolT → Prop
  | [] => True
  | t :: rest => wfTool env t ∧ wfTools env rest

def wfModel (env : SerEnv) (mc : ModelClass) : Prop :=
  env.importModelClass mc.modName mc.clsName = some mc.schema

mutual
def wfNode (env : SerEnv) : SNode → Prop
  | .append m => wfMsg env m
  | .prepend m => wfMsg env m
  | .reply ins => ins ≠ [] ∧ wfInstrs env ins
  | .invoke ts => ts ≠ [] ∧ wfTools env ts
  | .noop => True
  | .create mc ins => wfModel env mc ∧ ins ≠ [] ∧ wfInstrs env ins
  | .seq ns => ns ≠ [] ∧ wfNodes env ns
  | .decide t f ins =>
    wfNode env t ∧ wfNode env f ∧ ins ≠ [] ∧ wfInstrs env ins
  | .choose cs ins => cs ≠ [] ∧ wfChoices env cs ∧ ins ≠ [] ∧ wfInstrs env ins
  | .route fls => 2 ≤ fls.length ∧ wfFlows env fls
  | .functional _ => False
termination_by n => (sizeOf n, 0)
decreasing_by
  all_goals simp_wf
  all_goals apply Prod.Lex.left
  all_goals omega

def wfNodes (env : SerEnv) : List SNode → Prop
  | [] => True
  | n :: rest => wfNode env n ∧ wfNodes env rest
termination_by ns => (sizeOf ns, 1)
decreasing_by
  all_goals simp_wf
  · apply Prod.Lex.left
    omega
  · apply Prod.Lex.left
    omega

def wfChoices (env : SerEnv) : List (String × SNode) → Prop
  | [] => True
  | (_, n) :: rest => wfNode env n ∧ wfChoices env rest
termination_by cs => (sizeOf cs, 1)
decreasing_by
  all_goals simp_wf
  · apply Prod.Lex.left
    omega
  · apply Prod.Lex.left
    omega

def wfFlowT (env : SerEnv) : String × String × List SNode → Prop
  | (_, _, ns) => ns ≠ [] ∧ wfNodes env ns
termination_by fl => (sizeOf fl, 1)
decreasing_by
  simp_wf
  apply Prod.Lex.left
  omega

def wfFlows (env : SerEnv) : List (String × String × List SNode) → Prop
  | [] => True
  | fl :: rest => wfFlowT env fl ∧ wfFlows env rest
termination_by fls => (sizeOf fls, 0)
decreasing_by
  all_goals simp_wf
  · apply Prod.Lex.left
    omega
  · apply Prod.Lex.left
    omega
end

def wfFlow (env : SerEnv) (f : SFlow) : Prop :=
  wfFlowT env (f.name, f.description, f.nodes)

/-! Round-trip of the leaf layers: serialized messages, instructions, tools
and models validate cleanly and deserialize back to their sources. -/

theorem validateMessage_ser (m : Msg) (c : String) :
    validateMessage (serializeMessage m) c = [] := by
  obtain ⟨ro, co⟩ := m
  cases ro <;> cases co <;>
    simp [serializeMessage, serializeContent, Role.toStr, validateMessage,
      Doc.hasKey, lookupD]

theorem dserMessage_ser (env : SerEnv) (m : Msg) (h : wfMsg env m) :
    dserMessage env (serializeMessage m) = .ok m := by
  obtain ⟨ro, co⟩ := m
  simp only [wfMsg, wfContent] at h
  cases ro <;> cases co <;>
    simp_all [serializeMessage, serializeContent, Role.toStr, dserMessage,
      Doc.lookup?, lookupD, roleOfStr]

theorem validateInstruction_ser (i : Instr) (c : String) (k : Nat) :
    validateInstruction (serializeInstruction i) c k = [] := by
  cases i with
  | str s =>
    simp [serializeInstruction, validateInstruction, Doc.hasKey, lookupD]
  | msg m =>
    simp [serializeInstruction, validateInstruction, Doc.hasKey, lookupD,
      validateMessage_ser]

theorem dserInstruction_ser (env : SerEnv) (i : Instr) (h : wfInstr env i) :
    dserInstruction env (serializeInstruction i) = .ok i := by
  cases i with
  | str s =>
    simp [serializeInstruction, dserInstruction, Doc.lookup?, lookupD]
  | msg m =>
    simp only [wfInstr] at h
    simp [serializeInstruction, dserInstruction, Doc.lookup?, lookupD,
      dserMessage_ser env m h]

theorem validateInstructionsAux_ser (xs : List Instr) (c : String) (k : Nat) :
    validateInstructionsAux c k (xs.map serializeInstruction) = [] := by
  induction xs generalizing k with
  | nil => simp [validateInstructionsAux]
  | cons i rest ih =>
    simp [validateInstructionsAux, validateInstruction_ser, ih]

theorem validateInstructions_ser (xs : List Instr) (c : String)
    (h : xs ≠ []) :
    validateInstructions (.list (xs.map serializeInstruction)) c = [] := by
  simp [validateInstructions, validateInstructionsAux_ser, h]

theorem dserInstrList_ser (env : SerEnv) (xs : List Instr)
    (h : wfInstrs env xs) :
    dserInstrList env (xs.map serializeInstruction) = .ok xs := by
  induction xs with
  | nil => simp [dserInstrList]
  | cons i rest ih =>
    obtain ⟨h1, h2⟩ := h
    simp [dserInstrList, dserInstruction_ser env i h1, ih h2]

theorem validateTool_ser (env : SerEnv) (t : ToolT) (c : String) (k : Nat) :
    validateTool (serializeTool env t) c k = [] := by
  by_cases hf : (env.registry.find? (fun e => e.2 = t)).isSome
  · simp [serializeTool, hf, validateTool, Doc.hasKey, lookupD]
  · cases t <;>
      simp [serializeTool, hf, validateTool, Doc.hasKey, lookupD]

theorem dserTool_ser (env : SerEnv) (t : ToolT) (h : wfTool env t) :
    dserTool env (serializeTool env t) = .ok t := by
  rw [wfTool.eq_def] at h
  cases hf : env.registry.find? (fun e => e.2 = t) with
  | some u =>
    rw [hf] at h
    have hsome : (env.registry.find? (fun e => e.2 = t)).isSome = true := by
      rw [hf]; rfl
    simp [serializeTool, hsome, dserTool, Doc.lookup?, lookupD, h]
  | none =>
    rw [hf] at h
    have hnone : (env.registry.find? (fun e => e.2 = t)).isSome = false := by
      rw [hf]; rfl
    cases t with
    | delegate nm ds tm tn ia =>
      simp only at h
      simp [serializeTool, hnone, dserTool, Doc.lookup?, lookupD, h]
    | custom nm ds cp =>
      simp only at h
      simp [serializeTool, hnone, dserTool, Doc.lookup?, lookupD, h]
      rfl

theorem validateToolsAux_ser (env : SerEnv) (ts : List ToolT) (c : String)
    (k : Nat) :
    validateToolsAux c k (ts.map (serializeTool env)) = [] := by
  induction ts generalizing k with
  | nil => simp [validateToolsAux]
  | cons t rest ih =>
    simp [validateToolsAux, validateTool_ser, ih]

theorem validateTools_ser (env : SerEnv) (ts : List ToolT) (c : String)
    (h : ts ≠ []) :
    validateTools (.list (ts.map (serializeTool env))) c = [] := by
  simp [validateTools, validateToolsAux_ser, h]

theorem dserToolList_ser (env : SerEnv) (ts : List ToolT)
    (h : wfTools env ts) :
    dserToolList env (ts.map (serializeTool env)) = .ok ts := by
  induction ts with
  | nil => simp [dserToolList]
  | cons t rest ih =>
    obtain ⟨h1, h2⟩ := h
    simp [dserToolList, dserTool_ser env t h1, ih h2]

theorem validateModel_ser (mc : ModelClass) (c : String) :
    validateModel (serializeModel mc) c = [] := by
  simp [serializeModel, validateModel, Doc.hasKey, lookupD]

theorem dserModel_ser (env : SerEnv) (mc : ModelClass)
    (h : wfModel env mc) :
    dserModel env (serializeModel mc) = .ok mc := by
  obtain ⟨m, n, sch⟩ := mc
  rw [wfModel] at h
  simp only at h
  simp [serializeModel, dserModel, Doc.lookup?, lookupD, h]

theorem validateTopLevel_ser (nm dsc : String) (ds : List Doc) :
    validateTopLevel (.dict [("name", .str nm), ("description", .str dsc),
      ("version", .str "1.0"), ("nodes", .list ds)]) = [] := by
  simp [validateTopLevel, Doc.hasKey, Doc.lookup?, lookupD, Doc.isStr,
    Doc.isList]

theorem isEmpty_false_of_len {α β : Type} {ds : List α} {ns : List β}
    (hlen : ds.length = ns.length) (hne : ns ≠ []) : ds.isEmpty = false := by
  cases ds with
  | nil =>
    cases ns with
    | nil => exact absurd rfl hne
    | cons a b => simp at hlen
  | cons a b => rfl

/-! Round-trip of the node layer, by strong induction on tree size: a
well-formed tree serializes without error; the serialized document passes
the per-node validator under every location prefix; and deserializing it
rebuilds exactly the source tree. -/

def RTNode (env : SerEnv) (t : SNode) : Prop :=
  ∃ d, serializeNode env t = .ok d ∧ d.isDict = true
    ∧ (∀ idx, validateSingleNode d idx = [])
    ∧ dserNode env d = .ok t

def RTNodes (env : SerEnv) (ns : List SNode) : Prop :=
  ∃ ds, serializeNodes env ns = .ok ds
    ∧ ds.length = ns.length
    ∧ (∀ i, validateNodesAux i ds = [])
    ∧ (∀ c i, validateSeqAux c i ds = [])
    ∧ dserNodes env ds = .ok ns

def RTChoices (env : SerEnv) (cs : List (String × SNode)) : Prop :=
  ∃ kvs, serializeChoices env cs = .ok kvs
    ∧ kvs.length = cs.length
    ∧ (∀ c, validateChoicesAux c kvs = [])
    ∧ dserChoices env kvs = .ok cs

def RTFlow (env : SerEnv) (fl : String × String × List SNode) : Prop :=
  ∃ d, serializeFlowT env fl = .ok d ∧ d.isDict = true
    ∧ validateTopLevel d = []
    ∧ (∃ nds, d.lookup? "nodes" = some (.list nds) ∧ d.hasKey "nodes" = true
        ∧ validateNodes nds = [])
    ∧ dserFlowD env d = .ok fl

def RTFlows (env : SerEnv) (fls : List (String × String × List SNode)) :
    Prop :=
  ∃ ds, serializeFlows env fls = .ok ds
    ∧ ds.length = fls.length
    ∧ (∀ c i, validateFlowsAux c i ds = [])
    ∧ dserFlows env ds = .ok fls

theorem rt_ind (env : SerEnv) : ∀ k : Nat,
    (∀ t, sizeOf t ≤ k → wfNode env t → RTNode env t)
    ∧ (∀ ns, sizeOf ns ≤ k → wfNodes env ns → RTNodes env ns)
    ∧ (∀ cs, sizeOf cs ≤ k → wfChoices env cs → RTChoices env cs)
    ∧ (∀ fl, sizeOf fl ≤ k → wfFlowT env fl → RTFlow env fl)
    ∧ (∀ fls, sizeOf fls ≤ k → wfFlows env fls → RTFlows env fls) := by
  intro k
  induction k with
  | zero =>
    refine ⟨?_, ?_, ?_, ?_, ?_⟩
    · intro t hs _
      exfalso
      cases t <;> simp_arith at hs
    · intro ns hs _
      exfalso
      cases ns <;> simp_arith at hs
    · intro cs hs _
      exfalso
      cases cs <;> simp_arith at hs
    · intro fl hs _
      exfalso
      obtain ⟨a, b, c⟩ := fl
      simp_arith at hs
    · intro fls hs _
      exfalso
      cases fls <;> simp_arith at hs
  | succ k ih =>
    obtain ⟨ihN, ihNs, ihC, ihF, ihFs⟩ := ih
    refine ⟨?_, ?_, ?_, ?_, ?_⟩
    · -- single nodes
      intro t hs hwf
      cases t with
      | append m =>
        rw [wfNode] at hwf
        refine ⟨.dict [("type", .str "append"),
          ("message", serializeMessage m)], ?_, rfl, ?_, ?_⟩
        · simp [serializeNode]
        · intro idx
          have hspec : nodeSpecificErrors (.dict [("type", .str "append"),
              ("message", serializeMessage m)]) idx = [] := by
            rw [nodeSpecificErrors]
            exact validateMessage_ser m ("Node " ++ idx ++ " (append)")
          rw [validateSingleNode]
          simp [Doc.hasKey, Doc.lookup?, lookupD, List.find?,
            invalidTypeErrors, requiredFieldErrors, validNodeTypes,
            nodeRequirements, hspec]
        · rw [dserNode.eq_def]
          show (match dserMessage env (serializeMessage m) with
            | .error e => .error e
            | .ok m2 => Except.ok (SNode.append m2))
            = Except.ok (SNode.append m)
          rw [dserMessage_ser env m hwf]
      | prepend m =>
        rw [wfNode] at hwf
        refine ⟨.dict [("type", .str "prepend"),
          ("message", serializeMessage m)], ?_, rfl, ?_, ?_⟩
        · simp [serializeNode]
        · intro idx
          have hspec : nodeSpecificErrors (.dict [("type", .str "prepend"),
              ("message", serializeMessage m)]) idx = [] := by
            rw [nodeSpecificErrors]
            exact validateMessage_ser m ("Node " ++ idx ++ " (prepend)")
          rw [validateSingleNode]
          simp [Doc.hasKey, Doc.lookup?, lookupD, List.find?,
            invalidTypeErrors, requiredFieldErrors, validNodeTypes,
            nodeRequirements, hspec]
        · rw [dserNode.eq_def]
          show (match dserMessage env (serializeMessage m) with
            | .error e => .error e
            | .ok m2 => Except.ok (SNode.prepend m2))
            = Except.ok (SNode.prepend m)
          rw [dserMessage_ser env m hwf]
      | reply ins =>
        rw [wfNode] at hwf
        obtain ⟨hne, hwins⟩ := hwf
        refine ⟨.dict [("type", .str "reply"),
          ("instructions", .list (ins.map serializeInstruction))],
          ?_, rfl, ?_, ?_⟩
        · simp [serializeNode]
        · intro idx
          have hspec : nodeSpecificErrors (.dict [("type", .str "reply"),
              ("instructions", .list (ins.map serializeInstruction))]) idx
              = [] := by
            rw [nodeSpecificErrors]
            exact validateInstructions_ser ins
              ("Node " ++ idx ++ " (reply)") hne
          rw [validateSingleNode]
          simp [Doc.hasKey, Doc.lookup?, lookupD, List.find?,
            invalidTypeErrors, requiredFieldErrors, validNodeTypes,
            nodeRequirements, hspec]
        · rw [dserNode.eq_def]
          show (match dserInstrList env (ins.map serializeInstruction) with
            | .error e => .error e
            | .ok ins2 => Except.ok (SNode.reply ins2))
            = Except.ok (SNode.reply ins)
          rw [dserInstrList_ser env ins hwins]
      | invoke ts =>
        rw [wfNode] at hwf
        obtain ⟨hne, hwts⟩ := hwf
        refine ⟨.dict [("type", .str "invoke"),
          ("tools", .list (ts.map (serializeTool env)))], ?_, rfl, ?_, ?_⟩
        · simp [serializeNode]
        · intro idx
          have hspec : nodeSpecificErrors (.dict [("type", .str "invoke"),
              ("tools", .list (ts.map (serializeTool env)))]) idx = [] := by
            rw [nodeSpecificErrors]
            exact validateTools_ser env ts ("Node " ++ idx ++ " (invoke)") hne
          rw [validateSingleNode]
          simp [Doc.hasKey, Doc.lookup?, lookupD, List.find?,
            invalidTypeErrors, requiredFieldErrors, validNodeTypes,
            nodeRequirements, hspec]
        · rw [dserNode.eq_def]
          show (match dserToolList env (ts.map (serializeTool env)) with
            | .error e => .error e
            | .ok ts2 => Except.ok (SNode.invoke ts2))
            = Except.ok (SNode.invoke ts)
          rw [dserToolList_ser env ts hwts]
      | noop =>
        refine ⟨.dict [("type", .str "noop")], ?_, rfl, ?_, ?_⟩
        · simp [serializeNode]
        · intro idx
          have hspec : nodeSpecificErrors (.dict [("type", .str "noop")]) idx
              = [] := by
            rw [nodeSpecificErrors]
            rfl
          rw [validateSingleNode]
          simp [Doc.hasKey, Doc.lookup?, lookupD, List.find?,
            invalidTypeErrors, requiredFieldErrors, validNodeTypes,
            nodeRequirements, hspec]
        · rw [dserNode.eq_def]
          rfl
      | create mc ins =>
        rw [wfNode] at hwf
        obtain ⟨hwm, hne, hwins⟩ := hwf
        refine ⟨.dict [("type", .str "create"), ("model", serializeModel mc),
          ("instructions", .list (ins.map serializeInstruction))],
          ?_, rfl, ?_, ?_⟩
        · simp [serializeNode]
        · intro idx
          have hspec : nodeSpecificErrors (.dict [("type", .str "create"),
              ("model", serializeModel mc),
              ("instructions", .list (ins.map serializeInstruction))]) idx
              = [] := by
            rw [nodeSpecificErrors]
            show validateModel (serializeModel mc)
                ("Node " ++ idx ++ " (create)")
              ++ validateInstructions
                (Doc.list (ins.map serializeInstruction))
                ("Node " ++ idx ++ " (create)") = []
            rw [validateModel_ser,
              validateInstructions_ser ins ("Node " ++ idx ++ " (create)") hne]
            rfl
          rw [validateSingleNode]
          simp [Doc.hasKey, Doc.lookup?, lookupD, List.find?,
            invalidTypeErrors, requiredFieldErrors, validNodeTypes,
            nodeRequirements, hspec]
        · rw [dserNode.eq_def]
          show (match dserModel env (serializeModel mc) with
            | .error e => .error e
            | .ok mc2 =>
              match dserInstrList env (ins.map serializeInstruction) with
              | .error e => .error e
              | .ok ins2 => Except.ok (SNode.create mc2 ins2))
            = Except.ok (SNode.create mc ins)
          rw [dserModel_ser env mc hwm, dserInstrList_ser env ins hwins]
      | seq ns =>
        rw [wfNode] at hwf
        obtain ⟨hne, hwns⟩ := hwf
        simp only [SNode.seq.sizeOf_spec] at hs
        obtain ⟨ds, hsds, hlen, hvalN, hvalS, hdserN⟩ :=
          ihNs ns (by omega) hwns
        refine ⟨.dict [("type", .str "sequence"), ("nodes", .list ds)],
          ?_, rfl, ?_, ?_⟩
        · simp [serializeNode, hsds]
        · intro idx
          have hseq : validateSeqNodes (.list ds)
              ("Node " ++ idx ++ " (sequence)") = [] := by
            rw [validateSeqNodes]
            simp [isEmpty_false_of_len hlen hne, hvalS]
          have hspec : nodeSpecificErrors (.dict [("type", .str "sequence"),
              ("nodes", .list ds)]) idx = [] := by
            rw [nodeSpecificErrors]
            exact hseq
          rw [validateSingleNode]
          simp [Doc.hasKey, Doc.lookup?, lookupD, List.find?,
            invalidTypeErrors, requiredFieldErrors, validNodeTypes,
            nodeRequirements, hspec]
        · rw [dserNode.eq_def]
          show (match dserNodes env ds with
            | .error e => .error e
            | .ok ns2 => Except.ok (SNode.seq ns2))
            = Except.ok (SNode.seq ns)
          rw [hdserN]
      | decide t f ins =>
        rw [wfNode] at hwf
        obtain ⟨hwt, hwff, hne, hwins⟩ := hwf
        simp only [SNode.decide.sizeOf_spec] at hs
        obtain ⟨dt, hsdt, hdt, hvalT, hdserT⟩ := ihN t (by omega) hwt
        obtain ⟨df, hsdf, hdf, hvalF, hdserF⟩ := ihN f (by omega) hwff
        refine ⟨.dict [("type", .str "decide"), ("on_true", dt),
          ("on_false", df),
          ("instructions", .list (ins.map serializeInstruction))],
          ?_, rfl, ?_, ?_⟩
        · simp [serializeNode, hsdt, hsdf]
        · intro idx
          have hspec : nodeSpecificErrors (.dict [("type", .str "decide"),
              ("on_true", dt), ("on_false", df),
              ("instructions", .list (ins.map serializeInstruction))]) idx
              = [] := by
            rw [nodeSpecificErrors]
            show validateSingleNode dt (idx ++ ".on_true")
              ++ validateSingleNode df (idx ++ ".on_false")
              ++ validateInstructions
                (Doc.list (ins.map serializeInstruction))
                ("Node " ++ idx ++ " (decide)") = []
            rw [hvalT, hvalF,
              validateInstructions_ser ins ("Node " ++ idx ++ " (decide)") hne]
            rfl
          rw [validateSingleNode]
          simp [Doc.hasKey, Doc.lookup?, lookupD, List.find?,
            invalidTypeErrors, requiredFieldErrors, validNodeTypes,
            nodeRequirements, hspec]
        · rw [dserNode.eq_def]
          show (match dserNode env dt with
            | .error e => .error e
            | .ok t2 =>
              match dserNode env df with
              | .error e => .error e
              | .ok f2 =>
                match dserInstrList env (ins.map serializeInstruction) with
                | .error e => .error e
                | .ok ins2 => Except.ok (SNode.decide t2 f2 ins2))
            = Except.ok (SNode.decide t f ins)
          rw [hdserT, hdserF, dserInstrList_ser env ins hwins]
      | choose cs ins =>
        rw [wfNode] at hwf
        obtain ⟨hne, hwcs, hine, hwins⟩ := hwf
        simp only [SNode.choose.sizeOf_spec] at hs
        obtain ⟨kvs, hskvs, hlen, hvalC, hdserC⟩ := ihC cs (by omega) hwcs
        refine ⟨.dict [("type", .str "choose"), ("choices", .dict kvs),
          ("instructions", .list (ins.map serializeInstruction))],
          ?_, rfl, ?_, ?_⟩
        · simp [serializeNode, hskvs]
        · intro idx
          have hcd : validateChoicesDoc (.dict kvs)
              ("Node " ++ idx ++ " (choose)") = [] := by
            rw [validateChoicesDoc]
            simp [isEmpty_false_of_len hlen hne, hvalC]
          have hspec : nodeSpecificErrors (.dict [("type", .str "choose"),
              ("choices", .dict kvs),
              ("instructions", .list (ins.map serializeInstruction))]) idx
              = [] := by
            rw [nodeSpecificErrors]
            show validateChoicesDoc (.dict kvs) ("Node " ++ idx ++ " (choose)")
              ++ validateInstructions
                (Doc.list (ins.map serializeInstruction))
                ("Node " ++ idx ++ " (choose)") = []
            rw [hcd,
              validateInstructions_ser ins ("Node " ++ idx ++ " (choose)") hine]
            rfl
          rw [validateSingleNode]
          simp [Doc.hasKey, Doc.lookup?, lookupD, List.find?,
            invalidTypeErrors, requiredFieldErrors, validNodeTypes,
            nodeRequirements, hspec]
        · rw [dserNode.eq_def]
          show (match dserChoices env kvs with
            | .error e => .error e
            | .ok cs2 =>
              match dserInstrList env (ins.map serializeInstruction) with
              | .error e => .error e
              | .ok ins2 => Except.ok (SNode.choose cs2 ins2))
            = Except.ok (SNode.choose cs ins)
          rw [hdserC, dserInstrList_ser env ins hwins]
      | route fls =>
        rw [wfNode] at hwf
        obtain ⟨hge, hwfls⟩ := hwf
        simp only [SNode.route.sizeOf_spec] at hs
        obtain ⟨ds, hsds, hlen, hvalFs, hdserFs⟩ := ihFs fls (by omega) hwfls
        refine ⟨.dict [("type", .str "route"), ("flows", .list ds)],
          ?_, rfl, ?_, ?_⟩
        · simp [serializeNode, hsds]
        · intro idx
          have hfd : validateFlowsDoc (.list ds)
              ("Node " ++ idx ++ " (route)") = [] := by
            rw [validateFlowsDoc]
            have hnl : ¬ ds.length < 2 := by omega
            simp [hnl, hvalFs]
          have hspec : nodeSpecificErrors (.dict [("type", .str "route"),
              ("flows", .list ds)]) idx = [] := by
            rw [nodeSpecificErrors]
            exact hfd
          rw [validateSingleNode]
          simp [Doc.hasKey, Doc.lookup?, lookupD, List.find?,
            invalidTypeErrors, requiredFieldErrors, validNodeTypes,
            nodeRequirements, hspec]
        · rw [dserNode.eq_def]
          show (match dserFlows env ds with
            | .error e => .error e
            | .ok fls2 => Except.ok (SNode.route fls2))
            = Except.ok (SNode.route fls)
          rw [hdserFs]
      | functional fname =>
        rw [wfNode] at hwf
        exact absurd hwf (by simp)
    · -- node lists
      intro ns hs hwf
      cases ns with
      | nil =>
        refine ⟨[], ?_, rfl, ?_, ?_, ?_⟩
        · rw [serializeNodes]
        · intro i
          rw [validateNodesAux]
        · intro c i
          rw [validateSeqAux]
        · rw [dserNodes]
      | cons n rest =>
        rw [wfNodes] at hwf
        obtain ⟨hw1, hw2⟩ := hwf
        simp only [List.cons.sizeOf_spec] at hs
        obtain ⟨d, hsd, hdict, hval, hdser⟩ := ihN n (by omega) hw1
        obtain ⟨ds, hsds, hlen, hvalN, hvalS, hdserN⟩ :=
          ihNs rest (by omega) hw2
        refine ⟨d :: ds, ?_, ?_, ?_, ?_, ?_⟩
        · rw [serializeNodes]
          simp [hsd, hsds]
        · simp [hlen]
        · intro i
          rw [validateNodesAux]
          simp [hval, hvalN]
        · intro c i
          rw [validateSeqAux]
          simp [hval, hvalS]
        · rw [dserNodes]
          simp [hdser, hdserN]
    · -- choice lists
      intro cs hs hwf
      cases cs with
      | nil =>
        refine ⟨[], ?_, rfl, ?_, ?_⟩
        · rw [serializeChoices]
        · intro c
          rw [validateChoicesAux]
        · rw [dserChoices]
      | cons hd rest =>
        obtain ⟨key, n⟩ := hd
        rw [wfChoices] at hwf
        obtain ⟨hw1, hw2⟩ := hwf
        simp only [List.cons.sizeOf_spec, Prod.mk.sizeOf_spec] at hs
        obtain ⟨d, hsd, hdict, hval, hdser⟩ := ihN n (by omega) hw1
        obtain ⟨kvs, hskvs, hlen, hvalC, hdserC⟩ := ihC rest (by omega) hw2
        refine ⟨(key, d) :: kvs, ?_, ?_, ?_, ?_⟩
        · rw [serializeChoices]
          simp [hsd, hskvs]
        · simp [hlen]
        · intro c
          rw [validateChoicesAux]
          simp [hdict, hval, hvalC]
        · rw [dserChoices]
          simp [hdser, hdserC]
    · -- one flow
      intro fl hs hwf
      obtain ⟨nm, dsc, ns⟩ := fl
      rw [wfFlowT] at hwf
      obtain ⟨hne, hwns⟩ := hwf
      simp only [Prod.mk.sizeOf_spec] at hs
      obtain ⟨ds, hsds, hlen, hvalN, hvalS, hdserN⟩ := ihNs ns (by omega) hwns
      have hvnodes : validateNodes ds = [] := by
        rw [validateNodes]
        simp [isEmpty_false_of_len hlen hne, hvalN]
      have hvy : validateYaml (Doc.dict [("name", .str nm),
          ("description", .str dsc), ("version", .str "1.0"),
          ("nodes", .list ds)]) = [] := by
        simp [validateYaml, Doc.hasKey, Doc.lookup?, lookupD, List.find?,
          validateTopLevel_ser, hvnodes]
      refine ⟨.dict [("name", .str nm), ("description", .str dsc),
        ("version", .str "1.0"), ("nodes", .list ds)], ?_, rfl,
        validateTopLevel_ser nm dsc ds, ⟨ds, ?_, ?_, hvnodes⟩, ?_⟩
      · rw [serializeFlowT]
        simp [hsds]
      · simp [Doc.lookup?, lookupD, List.find?]
      · simp [Doc.hasKey]
      · rw [dserFlowD.eq_def]
        split
        · rename_i e es heq
          rw [hvy] at heq
          exact absurd heq (by simp)
        · show (match dserNodes env ds with
            | .error e => .error e
            | .ok ns2 => Except.ok (nm, dsc, ns2))
            = Except.ok (nm, dsc, ns)
          rw [hdserN]
    · -- flow lists
      intro fls hs hwf
      cases fls with
      | nil =>
        refine ⟨[], ?_, rfl, ?_, ?_⟩
        · rw [serializeFlows]
        · intro c i
          rw [validateFlowsAux]
        · rw [dserFlows]
      | cons fl rest =>
        rw [wfFlows] at hwf
        obtain ⟨hw1, hw2⟩ := hwf
        simp only [List.cons.sizeOf_spec] at hs
        obtain ⟨d, hsd, hdict, htop, hnodes, hdser⟩ := ihF fl (by omega) hw1
        obtain ⟨nds, hlk, hhk, hvn⟩ := hnodes
        obtain ⟨ds, hsds, hlen, hvalFs, hdserFs⟩ := ihFs rest (by omega) hw2
        refine ⟨d :: ds, ?_, ?_, ?_, ?_⟩
        · rw [serializeFlows]
          simp [hsd, hsds]
        · simp [hlen]
        · intro c i
          rw [validateFlowsAux]
          simp only [hdict, if_true, htop, List.map_nil, List.nil_append]
          have hmatch : (match hns : d.lookup? "nodes" with
              | some (.list ns) =>
                ((validateNodes ns).map
                  (fun e => c ++ " flow " ++ toString i ++ ": " ++ e))
              | some _ => []
              | none => []) = ([] : List String) := by
            split
            · rename_i ns2 heq
              rw [hlk] at heq
              have hin : Doc.list nds = Doc.list ns2 := by
                injection heq
              have hin2 : nds = ns2 := by
                injection hin
              subst hin2
              simp [hvn]
            · rfl
            · rfl
          rw [hmatch]
          simp [hvalFs]
        · rw [dserFlows]
          simp [hdser, hdserFs]

/-- **C2 (amended).**  The round-trip contract holds for every constructible
Flow tree that survives `deserialize_flow`'s own entry validation: if no
`FunctionalNode` occurs, every `instructions` list, `nodes` list and
`choices` mapping in the tree is non-empty, every `Route` holds at least two
flows, and the environment resolves every referenced tool, model class and
pydantic content back to the object it was serialized from, then
`deserialize_flow(serialize_flow(T))` returns a Flow equal to `T` — same
node kinds, same nesting, same field values.  Without those emptiness
conditions the round-trip fails: `deserialize_flow` validates first and
raises — see the counterexample. -/
theorem C2_serializer_roundtrip (env : SerEnv) (f : SFlow)
    (h : wfFlow env f) :
    (serializeFlow env f).bind (deserializeFlow env) = .ok f := by
  obtain ⟨nm, dsc, ns⟩ := f
  rw [wfFlow] at h
  obtain ⟨d, hsd, hdict, htop, hnodes, hdser⟩ :=
    ((rt_ind env (sizeOf ((nm, dsc, ns) : String × String × List SNode))
      ).2.2.2.1) (nm, dsc, ns) (le_refl _) h
  show (serializeFlowT env (nm, dsc, ns)).bind (deserializeFlow env)
    = .ok ⟨nm, dsc, ns⟩
  rw [hsd]
  show deserializeFlow env d = .ok ⟨nm, dsc, ns⟩
  rw [deserializeFlow, hdser]

def c2env : SerEnv :=
  ⟨[], fun _ _ => Option.none, fun _ => false, fun _ _ => Option.none,
   fun _ _ => Option.none⟩

def c2flow : SFlow :=
  ⟨"Demo", "demo flow",
   [.append ⟨.user, .str "hi"⟩, .reply [.str "respond"], .noop]⟩

theorem C2_serializer_roundtrip_witness :
    (serializeFlow c2env c2flow).bind (deserializeFlow c2env)
      = .ok c2flow :=
  C2_serializer_roundtrip c2env c2flow (by
    show wfFlowT c2env ("Demo", "demo flow",
      [.append ⟨.user, .str "hi"⟩, .reply [.str "respond"], .noop])
    rw [wfFlowT]
    refine ⟨by simp, ?_⟩
    rw [wfNodes]
    refine ⟨?_, ?_⟩
    · rw [wfNode]
      trivial
    rw [wfNodes]
    refine ⟨?_, ?_⟩
    · rw [wfNode]
      exact ⟨by simp, trivial, trivial⟩
    rw [wfNodes]
    refine ⟨?_, ?_⟩
    · rw [wfNode]
      trivial
    rw [wfNodes]
    trivial)

/-- The tree of the C2 counterexample: a Flow whose single `Reply` node has
no instructions — constructible (`Reply(*instructions)` accepts zero
arguments), serializable, but rejected by `deserialize_flow`'s validation. -/
def c2badFlow : SFlow := ⟨"F", "", [.reply []]⟩

def c2badDoc : Doc :=
  .dict [("name", .str "F"), ("description", .str ""),
    ("version", .str "1.0"),
    ("nodes", .list [.dict [("type", .str "reply"),
      ("instructions", .list [])]])]

/-- **C2 counterexample.**  `deserialize_flow(serialize_flow(T))` is not the
identity on every constructible declarative tree: for the Flow `F` with one
instruction-less `Reply` node, serialization succeeds, but
`deserialize_flow` validates the document first (serializer.py lines
343-345) and `_validate_instructions` rejects the empty list, so the
round-trip raises `ValidationError("Invalid flow structure", ["Node 0
(reply): 'instructions' list cannot be empty"])` instead of returning the
tree. -/
theorem C2_counterexample :
    (serializeFlow c2env c2badFlow).bind (deserializeFlow c2env)
      = .error (.validationError "Invalid flow structure"
          ["Node 0 (reply): " ++ sq "instructions"
            ++ " list cannot be empty"]) := by
  have hs : serializeFlow c2env c2badFlow = .ok c2badDoc := by
    have h1 : serializeNodes c2env [SNode.reply []]
        = .ok [.dict [("type", .str "reply"), ("instructions", .list [])]] := by
      rw [serializeNodes]
      rw [serializeNode]
      rw [serializeNodes]
      rfl
    rw [serializeFlow]
    show serializeFlowT c2env ("F", "", [SNode.reply []]) = .ok c2badDoc
    rw [serializeFlowT]
    rw [h1]
    rfl
  have hsn : validateSingleNode (.dict [("type", .str "reply"),
      ("instructions", .list [])]) (toString 0)
      = ["Node 0 (reply): " ++ sq "instructions"
          ++ " list cannot be empty"] := by
    rw [validateSingleNode, nodeSpecificErrors]
    decide
  have hvn : validateNodes [Doc.dict [("type", .str "reply"),
      ("instructions", .list [])]]
      = ["Node 0 (reply): " ++ sq "instructions"
          ++ " list cannot be empty"] := by
    rw [validateNodes]
    show validateNodesAux 0 [Doc.dict [("type", .str "reply"),
      ("instructions", .list [])]] = _
    rw [validateNodesAux]
    rw [hsn]
    rw [validateNodesAux]
    simp
  have hval : validateYaml c2badDoc
      = ["Node 0 (reply): " ++ sq "instructions"
          ++ " list cannot be empty"] := by
    rw [validateYaml]
    show validateTopLevel c2badDoc
      ++ validateNodes [Doc.dict [("type", .str "reply"),
        ("instructions", .list [])]] = _
    rw [hvn]
    rfl
  have hd : dserFlowD c2env c2badDoc
      = .error (.validationError "Invalid flow structure"
          ["Node 0 (reply): " ++ sq "instructions"
            ++ " list cannot be empty"]) := by
    rw [dserFlowD.eq_def]
    split
    · rename_i e es heq
      rw [hval] at heq
      injection heq with h1 h2
      subst h1
      subst h2
      rfl
    · rename_i heq
      rw [hval] at heq
      exact absurd heq (by simp)
  rw [hs]
  show deserializeFlow c2env c2badDoc = _
  rw [deserializeFlow, hd]

/-- One-flow Route and zero-tool Invoke, concretely. -/
theorem C7_construction_fails_with_valueError_witness :
    routeInit [("only", "", [])]
      = .error (.valueError "Route needs at least two flows.")
    ∧ invokeInit []
      = .error (.valueError
          "Invoke node must be initialized with at least one Tool.")
    ∧ ∀ e, routeInit [("only", "", [])] = .error e ∨ invokeInit [] = .error e →
        e.isConfigurationError = false :=
  C7_construction_fails_with_valueError [("only", "", [])] []
    (by decide) rfl

end Lingo
